import Mathlib

/- A shallow embedding of the BadgerDB-style buffer manager in
   src/lab2/BufMgr/BufMgr/src/buffer.cpp: clock (second-chance) replacement,
   pin-counted frames, a (file, page) -> frame index, and dirty-page
   write-back.  File identities and page contents are abstracted as Nat.
   Exceptions become explicit error results; since C++ exceptions leave
   already-performed mutations in place, every operation returns the final
   state together with an optional error. -/

namespace BufMgr

/-- Page: a fixed-size byte buffer that carries its own page number
(badgerdb Page); contents abstracted as a single Nat. -/
structure Page where
  pageNo : Nat
  data : Nat
deriving DecidableEq, Repr

/-- Modelled from the spec: the FrameDescriptor (BufDesc of buffer.h, which is
not under src/): validity, dirty flag, reference bit, pin count, owning file
identity and page number (both defined iff valid).  The frameNo field of the
C++ BufDesc is the index of the descriptor in the table and is left implicit. -/
structure BufDesc where
  fileId : Option Nat
  pageNo : Option Nat
  valid : Bool
  dirty : Bool
  refbit : Bool
  pinCnt : Nat
deriving DecidableEq, Repr

/-- Modelled from the spec: BufDesc::Clear resets the descriptor to the empty
state (no owning file or page, not valid, not dirty, reference bit unset,
pin count zero). -/
def BufDesc.Clear : BufDesc :=
  { fileId := none, pageNo := none, valid := false, dirty := false,
    refbit := false, pinCnt := 0 }

/-- Modelled from the spec: BufDesc::Set initializes the descriptor for a
newly loaded page: valid, not dirty, reference bit set, pin count one,
owning file and page number recorded. -/
def BufDesc.Set (f p : Nat) : BufDesc :=
  { fileId := some f, pageNo := some p, valid := true, dirty := false,
    refbit := true, pinCnt := 1 }

/-- Modelled from the spec: the Page Index (BufHashTbl, not under src/) is a
map from (file identity, page number) to a frame index, with insert, remove
and lookup-or-not-found; embedded as an association list.  Lookup returns the
first matching entry. -/
def hlookup : List ((Nat × Nat) × Nat) → Nat → Nat → Option Nat
  | [], _, _ => none
  | (k, v) :: t, f, p => if k = (f, p) then some v else hlookup t f p

/-- Modelled from the spec: Page Index removal deletes every entry for the
given (file, page) key. -/
def hremove : List ((Nat × Nat) × Nat) → Nat → Nat → List ((Nat × Nat) × Nat)
  | [], _, _ => []
  | (k, v) :: t, f, p =>
      if k = (f, p) then hremove t f p else (k, v) :: hremove t f p

/-- Lookup of a page's contents in an on-disk file (pageNo, data pairs). -/
def plookup : List (Nat × Nat) → Nat → Option Nat
  | [], _ => none
  | (q, d) :: t, p => if q = p then some d else plookup t p

/-- Update of an existing on-disk page's contents; a page that is not
allocated is left untouched (File::writePage requires an allocated page). -/
def pwrite : List (Nat × Nat) → Nat → Nat → List (Nat × Nat)
  | [], _, _ => []
  | (q, d) :: t, p, x => if q = p then (q, x) :: t else (q, d) :: pwrite t p x

/-- Deletion of an on-disk page. -/
def pdelete : List (Nat × Nat) → Nat → List (Nat × Nat)
  | [], _ => []
  | (q, d) :: t, p => if q = p then pdelete t p else (q, d) :: pdelete t p

/-- Modelled from the spec: the File collaborator (not under src/): a set of
allocated pages plus a counter from which fresh page numbers are drawn, so
that allocatePage always returns a fresh page number. -/
structure DiskFile where
  pages : List (Nat × Nat)
  nextPage : Nat
deriving DecidableEq, Repr

/-- Modelled from the spec: File::readPage fails if the page does not exist. -/
def DiskFile.readPage (df : DiskFile) (p : Nat) : Option Page :=
  (plookup df.pages p).map (fun d => { pageNo := p, data := d })

/-- Modelled from the spec: File::writePage writes the page's contents at the
page number the Page itself carries. -/
def DiskFile.writePage (df : DiskFile) (pg : Page) : DiskFile :=
  { df with pages := pwrite df.pages pg.pageNo pg.data }

/-- Modelled from the spec: File::allocatePage returns a blank page with a
fresh page number and records it on disk. -/
def DiskFile.allocatePage (df : DiskFile) : Page × DiskFile :=
  ({ pageNo := df.nextPage, data := 0 },
   { pages := (df.nextPage, 0) :: df.pages, nextPage := df.nextPage + 1 })

/-- Modelled from the spec: File::deletePage removes the page from persistent
storage. -/
def DiskFile.deletePage (df : DiskFile) (p : Nat) : DiskFile :=
  { df with pages := pdelete df.pages p }

/-- Disk lookup by file identity; an unknown file is an empty file. -/
def dget : List (Nat × DiskFile) → Nat → DiskFile
  | [], _ => { pages := [], nextPage := 0 }
  | (g, df) :: t, f => if g = f then df else dget t f

/-- Disk update by file identity (insert when absent). -/
def dset : List (Nat × DiskFile) → Nat → DiskFile → List (Nat × DiskFile)
  | [], f, df => [(f, df)]
  | (g, df0) :: t, f, df => if g = f then (f, df) :: t else (g, df0) :: dset t f df

/-- State of the buffer manager together with its collaborators: the frame
descriptor table (bufDescTable), the frame store (bufPool), the Page Index
(hashTable), the clock hand, the disk, and a log of write-back events
(fileId, written page), newest first. -/
structure BufState where
  frames : List BufDesc
  pool : List Page
  hash : List ((Nat × Nat) × Nat)
  clockHand : Nat
  disk : List (Nat × DiskFile)
  log : List (Nat × Page)
deriving DecidableEq, Repr

/-- numBufs is the fixed number of frames. -/
def BufState.numBufs (s : BufState) : Nat := s.frames.length

/-- Descriptor of frame i (out-of-range reads yield the empty descriptor). -/
def frameAt (s : BufState) (i : Nat) : BufDesc := s.frames.getD i BufDesc.Clear

/-- Contents of frame i. -/
def poolAt (s : BufState) (i : Nat) : Page := s.pool.getD i { pageNo := 0, data := 0 }

/-- Write frame id's current contents back to its owning file via the File
collaborator (entry.file->writePage(bufPool[id])), recording the event. -/
def writeBack (s : BufState) (id : Nat) : BufState :=
  { s with
    disk := dset s.disk ((frameAt s id).fileId.getD 0)
              ((dget s.disk ((frameAt s id).fileId.getD 0)).writePage (poolAt s id)),
    log := (((frameAt s id).fileId.getD 0), poolAt s id) :: s.log }

/-- Position of the clock hand after one advance (wrapping at numBufs). -/
def nextHand (s : BufState) : Nat :=
  if s.clockHand = s.numBufs - 1 then 0 else s.clockHand + 1

/-- BufMgr::advanceClock: clockHand = clockHand == numBufs - 1 ? 0 : clockHand + 1. -/
def advanceClock (s : BufState) : BufState :=
  { s with clockHand := nextHand s }

/-- Shared eviction flow for a valid frame (allocBuf's victim branch and each
flushed frame of flushFile): write the frame back if dirty, remove its
(file, pageNumber) entry from the Page Index, and reset its descriptor to the
empty state. -/
def evictFrame (s : BufState) (id : Nat) : BufState :=
  let s1 := if (frameAt s id).dirty then writeBack s id else s
  { s1 with
    hash := hremove s1.hash ((frameAt s id).fileId.getD 0) ((frameAt s id).pageNo.getD 0),
    frames := s1.frames.set id BufDesc.Clear }

/-- Error kinds thrown by the buffer manager (exception classes of the C++
source): BufferExceededException, PageNotPinnedException,
PagePinnedException, BadBufferException, and the File layer's
invalid-page failure when reading a nonexistent page. -/
inductive BufError where
  | bufferExceeded
  | pageNotPinned (f p : Nat)
  | pagePinned (f p : Nat)
  | badBuffer (id : Nat)
  | invalidPage (f p : Nat)
deriving DecidableEq, Repr

/-- Loop body of BufMgr::allocBuf, with the fuel playing the role of the
count/trylimit bound: each iteration advances the clock and inspects the
frame under the hand; an invalid frame is selected immediately; a referenced
frame loses its reference bit; a pinned frame is skipped; otherwise the frame
is the victim: written back if dirty, its mapping removed, its descriptor
cleared.  Returns the final state, the selected frame (none when the fuel ran
out, i.e. BufferExceededException), and the number of iterations executed. -/
def allocBufLoop : BufState → Nat → (BufState × Option Nat) × Nat
  | s, 0 => ((s, none), 0)
  | s, fuel + 1 =>
      let s1 := advanceClock s
      let e := frameAt s1 s1.clockHand
      if e.valid = false then
        ((({ s1 with frames := s1.frames.set s1.clockHand BufDesc.Clear }, some s1.clockHand)), 1)
      else if e.refbit = true then
        let r := allocBufLoop
          { s1 with frames := s1.frames.set s1.clockHand { e with refbit := false } } fuel
        (r.1, r.2 + 1)
      else if e.pinCnt ≠ 0 then
        let r := allocBufLoop s1 fuel
        (r.1, r.2 + 1)
      else
        ((evictFrame s1 s1.clockHand, some s1.clockHand), 1)

/-- BufMgr::allocBuf: while (count++ <= trylimit) with trylimit = numBufs * 2,
which admits 2 * numBufs + 1 iterations before BufferExceededException. -/
def allocBuf (s : BufState) : (BufState × Option Nat) × Nat :=
  allocBufLoop s (2 * s.numBufs + 1)

/-- BufMgr::readPage: on a Page Index hit set the reference bit, increment the
pin count and return the frame; on a miss obtain a victim via allocBuf, read
the page from the File collaborator (propagating its failure), insert the
mapping and Set the descriptor.  The returned value is the frame index (the
page reference). -/
def readPage (s : BufState) (f p : Nat) : BufState × Except BufError Nat :=
  match hlookup s.hash f p with
  | some id =>
      let e := { frameAt s id with refbit := true, pinCnt := (frameAt s id).pinCnt + 1 }
      ({ s with frames := s.frames.set id e }, .ok id)
  | none =>
      match (allocBuf s).1 with
      | (s1, none) => (s1, .error .bufferExceeded)
      | (s1, some id) =>
          match (dget s1.disk f).readPage p with
          | none => (s1, .error (.invalidPage f p))
          | some pg =>
              ({ s1 with
                 pool := s1.pool.set id pg,
                 hash := ((f, p), id) :: s1.hash,
                 frames := s1.frames.set id (BufDesc.Set f p) },
               .ok id)

/-- BufMgr::unPinPage: a Page Index miss is a silent no-op; a present page
with pin count zero raises PageNotPinnedException; otherwise the pin count is
decremented and, when markDirty holds, the dirty flag is set. -/
def unPinPage (s : BufState) (f p : Nat) (markDirty : Bool) : BufState × Option BufError :=
  match hlookup s.hash f p with
  | none => (s, none)
  | some id =>
      if (frameAt s id).pinCnt = 0 then (s, some (.pageNotPinned f p))
      else
        let e := { frameAt s id with pinCnt := (frameAt s id).pinCnt - 1, dirty := markDirty || (frameAt s id).dirty }
        ({ s with frames := s.frames.set id e }, none)

/-- Loop body of BufMgr::flushFile over the given frame indices: frames not
owned by the file are skipped; an invalid frame still associated with the
file raises BadBufferException; a pinned frame raises PagePinnedException;
otherwise the frame is written back if dirty, its mapping removed and its
descriptor cleared.  An exception aborts the loop with the mutations already
performed left in place. -/
def flushLoop (f : Nat) : BufState → List Nat → BufState × Option BufError
  | s, [] => (s, none)
  | s, id :: rest =>
      if (frameAt s id).fileId ≠ some f then flushLoop f s rest
      else if (frameAt s id).valid = false then (s, some (.badBuffer id))
      else if (frameAt s id).pinCnt ≠ 0 then
        (s, some (.pagePinned f ((frameAt s id).pageNo.getD 0)))
      else flushLoop f (evictFrame s id) rest

/-- BufMgr::flushFile scans all frames in index order. -/
def flushFile (s : BufState) (f : Nat) : BufState × Option BufError :=
  flushLoop f s (List.range s.numBufs)

/-- BufMgr::allocPage: allocate a fresh on-disk page first, then obtain a
frame via allocBuf (BufferExceededException propagates with the on-disk
allocation already performed), insert the mapping, Set the descriptor and
copy the new page into the frame.  Returns the new page number and the frame
index. -/
def allocPage (s : BufState) (f : Nat) : BufState × Except BufError (Nat × Nat) :=
  let ap := (dget s.disk f).allocatePage
  let s0 := { s with disk := dset s.disk f ap.2 }
  match (allocBuf s0).1 with
  | (s1, none) => (s1, .error .bufferExceeded)
  | (s1, some fid) =>
      ({ s1 with
         hash := ((f, ap.1.pageNo), fid) :: s1.hash,
         frames := s1.frames.set fid (BufDesc.Set f ap.1.pageNo),
         pool := s1.pool.set fid ap.1 },
       .ok (ap.1.pageNo, fid))

/-- BufMgr::disposePage: delete the page from persistent storage; if a frame
caches it, remove the mapping and clear the descriptor (no pin check, no
write-back); a Page Index miss is a silent no-op. -/
def disposePage (s : BufState) (f p : Nat) : BufState × Option BufError :=
  let s0 := { s with disk := dset s.disk f ((dget s.disk f).deletePage p) }
  match hlookup s0.hash f p with
  | none => (s0, none)
  | some fid =>
      ({ s0 with hash := hremove s0.hash f p, frames := s0.frames.set fid BufDesc.Clear },
       none)

/-- Loop body of the destructor BufMgr::~BufMgr: every valid frame must be
unpinned (PagePinnedException otherwise) and is written back if dirty;
descriptors are not cleared, the resources are simply released afterwards. -/
def shutdownLoop : BufState → List Nat → BufState × Option BufError
  | s, [] => (s, none)
  | s, id :: rest =>
      if (frameAt s id).valid = false then shutdownLoop s rest
      else if (frameAt s id).pinCnt ≠ 0 then
        (s, some (.pagePinned ((frameAt s id).fileId.getD 0) ((frameAt s id).pageNo.getD 0)))
      else if (frameAt s id).dirty then shutdownLoop (writeBack s id) rest
      else shutdownLoop s rest

/-- Destruction-time write-back over all frames in index order. -/
def shutdown (s : BufState) : BufState × Option BufError :=
  shutdownLoop s (List.range s.numBufs)

/-- BufMgr::BufMgr(bufs): all descriptors start empty, the pool is blank, the
Page Index is empty and the clock hand starts at bufs - 1; the disk is the
pre-existing content of persistent storage. -/
def initState (n : Nat) (d : List (Nat × DiskFile)) : BufState :=
  { frames := List.replicate n BufDesc.Clear,
    pool := List.replicate n { pageNo := 0, data := 0 },
    hash := [],
    clockHand := n - 1,
    disk := d,
    log := [] }

/-- The public operations of the buffer manager. -/
inductive Op where
  | read (f p : Nat)
  | alloc (f : Nat)
  | unpin (f p : Nat) (d : Bool)
  | dispose (f p : Nat)
  | flush (f : Nat)
deriving DecidableEq, Repr

/-- State effect of one public operation (errors leave their partial
mutations in place, as C++ exceptions do). -/
def step (s : BufState) : Op → BufState
  | .read f p => (readPage s f p).1
  | .alloc f => (allocPage s f).1
  | .unpin f p d => (unPinPage s f p d).1
  | .dispose f p => (disposePage s f p).1
  | .flush f => (flushFile s f).1

/-- Run a sequence of public operations. -/
def run (s : BufState) : List Op → BufState
  | [] => s
  | op :: rest => run (step s op) rest

/-- The clock hand stays inside the frame table. -/
def clockOk (s : BufState) : Prop := s.clockHand < s.numBufs

/-- Every Page Index entry points into the frame table, at a valid frame
whose descriptor carries exactly the entry's key. -/
def hashOk1 (s : BufState) : Prop :=
  ∀ e ∈ s.hash, e.2 < s.numBufs ∧ (frameAt s e.2).valid = true ∧
    (frameAt s e.2).fileId = some e.1.1 ∧ (frameAt s e.2).pageNo = some e.1.2

/-- Every valid frame is found by looking its own key up in the Page Index. -/
def hashOk2 (s : BufState) : Prop :=
  ∀ i < s.numBufs, (frameAt s i).valid = true →
    hlookup s.hash ((frameAt s i).fileId.getD 0) ((frameAt s i).pageNo.getD 0) = some i

/-- Invalid frames are exactly the empty descriptor. -/
def descOk (s : BufState) : Prop :=
  ∀ i < s.numBufs, (frameAt s i).valid = false → frameAt s i = BufDesc.Clear

/-- Every page of an on-disk file lies below the fresh-page counter. -/
def fileWF (df : DiskFile) : Prop := ∀ e ∈ df.pages, e.1 < df.nextPage

/-- All files on disk are well formed. -/
def diskWF (d : List (Nat × DiskFile)) : Prop := ∀ e ∈ d, fileWF e.2

/-- Every valid frame caches a page number below its file's fresh-page
counter (so a freshly allocated page number is never already cached). -/
def framesDiskOk (s : BufState) : Prop :=
  ∀ i < s.numBufs, (frameAt s i).valid = true →
    (frameAt s i).pageNo.getD 0 < (dget s.disk ((frameAt s i).fileId.getD 0)).nextPage

/-- The buffer pool invariant maintained by every public operation. -/
def Inv (s : BufState) : Prop :=
  1 ≤ s.numBufs ∧ clockOk s ∧ hashOk1 s ∧ hashOk2 s ∧ descOk s ∧
    framesDiskOk s ∧ diskWF s.disk

/-- Number of sweep iterations (1-based) until a hand at position hand in a
pool of n frames reaches frame j. -/
def cdist (n hand j : Nat) : Nat := (j + n - (hand + 1)) % n + 1

/-- Number of sweep iterations until the clock hand visits frame j. -/
def sweepDist (s : BufState) (j : Nat) : Nat := cdist s.numBufs s.clockHand j

/-- Fuel sufficient for the sweep to select a victim when frame j is
selectable: the distance to j, plus one full extra lap when j's reference bit
must first be cleared. -/
def sweepCost (s : BufState) (j : Nat) : Nat :=
  sweepDist s j +
    (if (frameAt s j).valid = true ∧ (frameAt s j).refbit = true then s.numBufs else 0)

/-- No two valid frames simultaneously hold the same (file, pageNumber) key. -/
def keyUnique (s : BufState) : Prop :=
  ∀ i j, i < s.numBufs → j < s.numBufs →
    (frameAt s i).valid = true → (frameAt s j).valid = true →
    (frameAt s i).fileId = (frameAt s j).fileId →
    (frameAt s i).pageNo = (frameAt s j).pageNo → i = j

/-- On-disk content for the concrete scenarios: a single file (identity 0)
holding pages 1, 2 and 3, with 4 as the next fresh page number. -/
def demoDisk : List (Nat × DiskFile) :=
  [(0, { pages := [(1, 11), (2, 22), (3, 33)], nextPage := 4 })]

/-- Scenario state: a 2-frame pool in which file 0's page 1 sits unpinned and
dirty in frame 0 while page 2 sits pinned in frame 1. -/
def twoFrameState : BufState :=
  run (initState 2 demoDisk) [Op.read 0 1, Op.unpin 0 1 true, Op.read 0 2]

/-- Scenario state: a 1-frame pool whose single frame holds file 0's page 1
pinned. -/
def oneFramePinned : BufState :=
  run (initState 1 demoDisk) [Op.read 0 1]

/-- Scenario state: a 2-frame pool with both frames holding pinned pages
(file 0's pages 1 and 2). -/
def twoFramePinned : BufState :=
  run (initState 2 demoDisk) [Op.read 0 1, Op.read 0 2]

end BufMgr

namespace BufMgr

/-- Writing inside the bounds of a list and reading the same index gives the
written element. -/
theorem getD_set_self {α : Type} (l : List α) (i : Nat) (a d : α) (h : i < l.length) :
    (l.set i a).getD i d = a := by
  induction l generalizing i with
  | nil => simp at h
  | cons x t ih =>
    cases i with
    | zero => rfl
    | succ k => exact ih k (by simpa using h)

/-- Writing one index leaves reads at other indices unchanged. -/
theorem getD_set_ne {α : Type} (l : List α) (i j : Nat) (a d : α) (h : i ≠ j) :
    (l.set i a).getD j d = l.getD j d := by
  induction l generalizing i j with
  | nil => rfl
  | cons x t ih =>
    cases i with
    | zero =>
      cases j with
      | zero => exact absurd rfl h
      | succ m => rfl
    | succ k =>
      cases j with
      | zero => rfl
      | succ m => exact ih k m (fun hh => h (by rw [hh]))

/-- Reading beyond the end of a list gives the default. -/
theorem getD_of_le {α : Type} (l : List α) (i : Nat) (d : α) (h : l.length ≤ i) :
    l.getD i d = d := by
  induction l generalizing i with
  | nil => cases i <;> rfl
  | cons x t ih =>
    cases i with
    | zero => simp at h
    | succ k => exact ih k (by simpa using h)

/-- Reading a replicated list gives the replicated element. -/
theorem getD_replicate {α : Type} (n i : Nat) (a : α) : (List.replicate n a).getD i a = a := by
  induction n generalizing i with
  | zero => cases i <;> rfl
  | succ m ih =>
    cases i with
    | zero => rfl
    | succ k => exact ih k

/-- Page Index lookup misses exactly when no entry carries the key. -/
theorem hlookup_eq_none {h : List ((Nat × Nat) × Nat)} {f p : Nat} :
    hlookup h f p = none ↔ ∀ e ∈ h, e.1 ≠ (f, p) := by
  induction h with
  | nil => simp [hlookup]
  | cons x t ih =>
    obtain ⟨k, v⟩ := x
    by_cases hk : k = (f, p)
    · subst hk
      simp [hlookup]
    · simp [hlookup, hk, ih]

/-- A successful Page Index lookup exhibits a matching entry. -/
theorem hlookup_mem {h : List ((Nat × Nat) × Nat)} {f p i : Nat}
    (hl : hlookup h f p = some i) : ((f, p), i) ∈ h := by
  induction h with
  | nil => simp [hlookup] at hl
  | cons x t ih =>
    obtain ⟨k, v⟩ := x
    by_cases hk : k = (f, p)
    · subst hk
      simp [hlookup] at hl
      simp [hl]
    · simp [hlookup, hk] at hl
      exact List.mem_cons_of_mem _ (ih hl)

/-- Membership after Page Index removal. -/
theorem mem_hremove {h : List ((Nat × Nat) × Nat)} {f p : Nat} {e : (Nat × Nat) × Nat} :
    e ∈ hremove h f p ↔ e ∈ h ∧ e.1 ≠ (f, p) := by
  induction h with
  | nil => simp [hremove]
  | cons x t ih =>
    obtain ⟨k, v⟩ := x
    by_cases hk : k = (f, p)
    · subst hk
      have hstep : hremove (((f, p), v) :: t) f p = hremove t f p := by simp [hremove]
      rw [hstep, ih, List.mem_cons]
      constructor
      · exact fun hh => ⟨Or.inr hh.1, hh.2⟩
      · rintro ⟨rfl | h1, h2⟩
        · exact absurd rfl h2
        · exact ⟨h1, h2⟩
    · simp only [hremove, if_neg hk, List.mem_cons, ih]
      constructor
      · rintro (rfl | ⟨h1, h2⟩)
        · exact ⟨Or.inl rfl, hk⟩
        · exact ⟨Or.inr h1, h2⟩
      · rintro ⟨rfl | h1, h2⟩
        · exact Or.inl rfl
        · exact Or.inr ⟨h1, h2⟩

/-- Removal of a key makes its lookup miss. -/
theorem hlookup_hremove_self (h : List ((Nat × Nat) × Nat)) (f p : Nat) :
    hlookup (hremove h f p) f p = none := by
  rw [hlookup_eq_none]
  intro e he
  exact (mem_hremove.mp he).2

/-- Removal of one key does not change lookups of other keys. -/
theorem hlookup_hremove_ne (h : List ((Nat × Nat) × Nat)) (f p f' p' : Nat)
    (hne : (f', p') ≠ (f, p)) :
    hlookup (hremove h f p) f' p' = hlookup h f' p' := by
  induction h with
  | nil => rfl
  | cons x t ih =>
    obtain ⟨k, v⟩ := x
    by_cases hk : k = (f, p)
    · subst hk
      have : ((f, p) : Nat × Nat) ≠ (f', p') := fun hh => hne hh.symm
      simp [hremove, hlookup, this, ih]
    · by_cases hk' : k = (f', p')
      · subst hk'
        simp [hremove, hlookup, hk]
      · simp [hremove, hlookup, hk, hk', ih]

/-- Disk lookup after updating the same file. -/
theorem dget_dset_self (d : List (Nat × DiskFile)) (f : Nat) (df : DiskFile) :
    dget (dset d f df) f = df := by
  induction d with
  | nil => simp [dset, dget]
  | cons x t ih =>
    obtain ⟨g, df0⟩ := x
    by_cases hg : g = f
    · subst hg
      simp [dset, dget]
    · simp [dset, dget, hg, ih]

/-- Disk lookup after updating a different file. -/
theorem dget_dset_ne (d : List (Nat × DiskFile)) (f g : Nat) (df : DiskFile) (h : g ≠ f) :
    dget (dset d f df) g = dget d g := by
  have hfg : ¬ (f = g) := fun hh => h hh.symm
  induction d with
  | nil => simp [dset, dget, hfg]
  | cons x t ih =>
    obtain ⟨k, df0⟩ := x
    by_cases hk : k = f
    · have hkg : ¬ (k = g) := by
        rw [hk]
        exact hfg
      simp [dset, dget, hk, hkg, hfg]
    · by_cases hk' : k = g
      · simp [dset, dget, hk, hk', h]
      · simp [dset, dget, hk, hk', ih]

/-- Entries of an updated disk are the new entry or old entries. -/
theorem mem_dset {d : List (Nat × DiskFile)} {f : Nat} {df : DiskFile} {e : Nat × DiskFile}
    (h : e ∈ dset d f df) : e = (f, df) ∨ e ∈ d := by
  induction d with
  | nil => simpa [dset] using h
  | cons x t ih =>
    obtain ⟨g, df0⟩ := x
    by_cases hg : g = f
    · rw [dset, if_pos hg] at h
      rcases List.mem_cons.mp h with h1 | h1
      · exact Or.inl h1
      · exact Or.inr (List.mem_cons_of_mem _ h1)
    · rw [dset, if_neg hg] at h
      rcases List.mem_cons.mp h with h1 | h1
      · exact Or.inr (h1 ▸ List.mem_cons_self _ _)
      · rcases ih h1 with h2 | h2
        · exact Or.inl h2
        · exact Or.inr (List.mem_cons_of_mem _ h2)

/-- Page numbers present after an in-place page write were present before. -/
theorem mem_pwrite {l : List (Nat × Nat)} {p x : Nat} {e : Nat × Nat}
    (h : e ∈ pwrite l p x) : ∃ d0, (e.1, d0) ∈ l := by
  induction l with
  | nil => simp [pwrite] at h
  | cons y t ih =>
    obtain ⟨q, d⟩ := y
    by_cases hq : q = p
    · rw [pwrite, if_pos hq] at h
      rcases List.mem_cons.mp h with h1 | h1
      · exact ⟨d, by rw [h1]; exact List.mem_cons_self _ _⟩
      · exact ⟨e.2, List.mem_cons_of_mem _ h1⟩
    · rw [pwrite, if_neg hq] at h
      rcases List.mem_cons.mp h with h1 | h1
      · exact ⟨d, by rw [h1]; exact List.mem_cons_self _ _⟩
      · obtain ⟨d0, hd0⟩ := ih h1
        exact ⟨d0, List.mem_cons_of_mem _ hd0⟩

/-- Deletion only removes entries. -/
theorem mem_pdelete {l : List (Nat × Nat)} {p : Nat} {e : Nat × Nat}
    (h : e ∈ pdelete l p) : e ∈ l := by
  induction l with
  | nil => simp [pdelete] at h
  | cons y t ih =>
    obtain ⟨q, d⟩ := y
    by_cases hq : q = p
    · subst hq
      simp only [pdelete, if_pos rfl] at h
      exact List.mem_cons_of_mem _ (ih h)
    · simp only [pdelete, if_neg hq, List.mem_cons] at h
      rcases h with rfl | h
      · exact List.mem_cons_self _ _
      · exact List.mem_cons_of_mem _ (ih h)

/-- A successful page-content lookup exhibits the on-disk entry. -/
theorem plookup_mem {l : List (Nat × Nat)} {p d : Nat} (h : plookup l p = some d) :
    (p, d) ∈ l := by
  induction l with
  | nil => simp [plookup] at h
  | cons y t ih =>
    obtain ⟨q, d0⟩ := y
    by_cases hq : q = p
    · subst hq
      simp [plookup] at h
      simp [h]
    · simp [plookup, hq] at h
      exact List.mem_cons_of_mem _ (ih h)

end BufMgr

namespace BufMgr

/-- Projections of advanceClock. -/
theorem advanceClock_fields (s : BufState) :
    (advanceClock s).frames = s.frames ∧ (advanceClock s).pool = s.pool ∧
    (advanceClock s).hash = s.hash ∧ (advanceClock s).clockHand = nextHand s ∧
    (advanceClock s).disk = s.disk ∧ (advanceClock s).log = s.log :=
  ⟨rfl, rfl, rfl, rfl, rfl, rfl⟩

/-- Unfolding of the sweep with no fuel left (BufferExceededException). -/
theorem allocBufLoop_zero (s : BufState) : allocBufLoop s 0 = ((s, none), 0) := rfl

/-- Sweep step on an invalid frame: selected immediately, descriptor cleared,
no write-back, no Page Index removal. -/
theorem allocBufLoop_invalid (s : BufState) (fuel : Nat)
    (h : (frameAt s (nextHand s)).valid = false) :
    allocBufLoop s (fuel + 1) =
      (({ s with
          clockHand := nextHand s,
          frames := s.frames.set (nextHand s) BufDesc.Clear }, some (nextHand s)), 1) := by
  simp [allocBufLoop, advanceClock, frameAt] at *
  simp [h]

/-- Sweep step on a valid referenced frame: the reference bit is cleared and
the sweep continues (second chance). -/
theorem allocBufLoop_refbit (s : BufState) (fuel : Nat)
    (hv : (frameAt s (nextHand s)).valid = true)
    (hr : (frameAt s (nextHand s)).refbit = true) :
    allocBufLoop s (fuel + 1) =
      ((allocBufLoop { s with clockHand := nextHand s, frames := s.frames.set (nextHand s) ({ frameAt s (nextHand s) with refbit := false }) } fuel).1,
       (allocBufLoop { s with clockHand := nextHand s, frames := s.frames.set (nextHand s) ({ frameAt s (nextHand s) with refbit := false }) } fuel).2 + 1) := by
  simp [allocBufLoop, advanceClock, frameAt] at *
  simp [hv, hr]

/-- Sweep step on a valid unreferenced pinned frame: skipped. -/
theorem allocBufLoop_pinned (s : BufState) (fuel : Nat)
    (hv : (frameAt s (nextHand s)).valid = true)
    (hr : (frameAt s (nextHand s)).refbit = false)
    (hp : (frameAt s (nextHand s)).pinCnt ≠ 0) :
    allocBufLoop s (fuel + 1) =
      ((allocBufLoop (advanceClock s) fuel).1, (allocBufLoop (advanceClock s) fuel).2 + 1) := by
  simp [allocBufLoop, advanceClock, frameAt] at *
  simp [hv, hr, hp]

/-- Sweep step on a valid unreferenced unpinned frame: it is the victim and
is evicted (write-back if dirty, Page Index removal, descriptor clear). -/
theorem allocBufLoop_victim (s : BufState) (fuel : Nat)
    (hv : (frameAt s (nextHand s)).valid = true)
    (hr : (frameAt s (nextHand s)).refbit = false)
    (hp : (frameAt s (nextHand s)).pinCnt = 0) :
    allocBufLoop s (fuel + 1) =
      ((evictFrame (advanceClock s) (nextHand s), some (nextHand s)), 1) := by
  simp [allocBufLoop, advanceClock, frameAt] at *
  simp [hv, hr, hp]

/-- Eviction of a clean frame: Page Index entry removed and descriptor
cleared; disk, log and pool untouched. -/
theorem evictFrame_clean (s : BufState) (id : Nat) (h : (frameAt s id).dirty = false) :
    evictFrame s id =
      { s with
        hash := hremove s.hash ((frameAt s id).fileId.getD 0) ((frameAt s id).pageNo.getD 0),
        frames := s.frames.set id BufDesc.Clear } := by
  simp [evictFrame, h]

/-- Eviction of a dirty frame: contents written back via the File
collaborator (disk updated, event logged), then Page Index entry removed and
descriptor cleared. -/
theorem evictFrame_dirty (s : BufState) (id : Nat) (h : (frameAt s id).dirty = true) :
    evictFrame s id =
      { s with
        disk := dset s.disk ((frameAt s id).fileId.getD 0) ((dget s.disk ((frameAt s id).fileId.getD 0)).writePage (poolAt s id)),
        log := ((frameAt s id).fileId.getD 0, poolAt s id) :: s.log,
        hash := hremove s.hash ((frameAt s id).fileId.getD 0) ((frameAt s id).pageNo.getD 0),
        frames := s.frames.set id BufDesc.Clear } := by
  simp [evictFrame, writeBack, h]

end BufMgr

namespace BufMgr

/-- Writing a list position at or beyond the length is a no-op. -/
theorem getD_set_cases {α : Type} (l : List α) (i j : Nat) (a d : α) :
    (l.set i a).getD j d = if i = j ∧ i < l.length then a else l.getD j d := by
  by_cases hij : i = j
  · subst hij
    by_cases hi : i < l.length
    · simp [hi, getD_set_self l i a d hi]
    · rw [List.set_eq_of_length_le (Nat.le_of_not_lt hi)]
      simp [hi]
  · simp [hij, getD_set_ne l i j a d hij]

/-- A valid descriptor can only be read inside the frame table. -/
theorem frameAt_lt_of_valid {s : BufState} {i : Nat} (h : (frameAt s i).valid = true) :
    i < s.numBufs := by
  by_contra hle
  have : frameAt s i = BufDesc.Clear := getD_of_le _ _ _ (Nat.le_of_not_lt hle)
  rw [this] at h
  exact absurd h (by simp [BufDesc.Clear])

/-- Eviction does not touch the frame contents. -/
theorem evictFrame_pool (s : BufState) (id : Nat) : (evictFrame s id).pool = s.pool := by
  cases h : (frameAt s id).dirty
  · rw [evictFrame_clean s id h]
  · rw [evictFrame_dirty s id h]

/-- Eviction does not move the clock hand. -/
theorem evictFrame_clockHand (s : BufState) (id : Nat) :
    (evictFrame s id).clockHand = s.clockHand := by
  cases h : (frameAt s id).dirty
  · rw [evictFrame_clean s id h]
  · rw [evictFrame_dirty s id h]

/-- Eviction preserves the size of the frame table. -/
theorem evictFrame_length (s : BufState) (id : Nat) :
    (evictFrame s id).frames.length = s.frames.length := by
  cases h : (frameAt s id).dirty
  · rw [evictFrame_clean s id h]
    exact List.length_set s.frames id BufDesc.Clear
  · rw [evictFrame_dirty s id h]
    exact List.length_set s.frames id BufDesc.Clear

/-- Eviction only removes Page Index entries. -/
theorem evictFrame_hash_sub (s : BufState) (id : Nat) {e : (Nat × Nat) × Nat}
    (he : e ∈ (evictFrame s id).hash) : e ∈ s.hash := by
  cases h : (frameAt s id).dirty
  · rw [evictFrame_clean s id h] at he
    exact (mem_hremove.mp he).1
  · rw [evictFrame_dirty s id h] at he
    exact (mem_hremove.mp he).1

/-- Eviction clears the evicted descriptor and leaves the others unchanged. -/
theorem evictFrame_frameAt (s : BufState) (id i : Nat) :
    frameAt (evictFrame s id) i =
      if id = i ∧ id < s.numBufs then BufDesc.Clear else frameAt s i := by
  have hfr : (evictFrame s id).frames = s.frames.set id BufDesc.Clear := by
    cases h : (frameAt s id).dirty
    · rw [evictFrame_clean s id h]
    · rw [evictFrame_dirty s id h]
  have hnb : s.numBufs = s.frames.length := rfl
  show (evictFrame s id).frames.getD i BufDesc.Clear = _
  rw [hfr, getD_set_cases, hnb]
  rfl

/-- Eviction never lowers a fresh-page counter. -/
theorem evictFrame_nextPage (s : BufState) (id : Nat) (g : Nat) :
    (dget (evictFrame s id).disk g).nextPage = (dget s.disk g).nextPage := by
  cases h : (frameAt s id).dirty
  · rw [evictFrame_clean s id h]
  · rw [evictFrame_dirty s id h]
    show (dget (dset s.disk ((frameAt s id).fileId.getD 0) _) g).nextPage = _
    by_cases hg : g = (frameAt s id).fileId.getD 0
    · subst hg
      rw [dget_dset_self]
      rfl
    · rw [dget_dset_ne _ _ _ _ hg]

end BufMgr

namespace BufMgr

/-- A Bool that is not false is true. -/
theorem bool_ne_false {b : Bool} (h : ¬ b = false) : b = true := by
  cases b
  · exact absurd rfl h
  · rfl

/-- A Bool that is not true is false. -/
theorem bool_ne_true {b : Bool} (h : ¬ b = true) : b = false := by
  cases b
  · rfl
  · exact absurd rfl h

/-- The sweep does not change the size of the frame table. -/
theorem allocBufLoop_length : ∀ (fuel : Nat) (s : BufState),
    ((allocBufLoop s fuel).1.1).frames.length = s.frames.length := by
  intro fuel
  induction fuel with
  | zero => intro s; rfl
  | succ fuel ih =>
    intro s
    by_cases hv : (frameAt s (nextHand s)).valid = false
    · rw [allocBufLoop_invalid s fuel hv]
      exact List.length_set s.frames (nextHand s) BufDesc.Clear
    · have hv1 := bool_ne_false hv
      by_cases hr : (frameAt s (nextHand s)).refbit = true
      · rw [allocBufLoop_refbit s fuel hv1 hr]
        rw [ih]
        exact List.length_set s.frames (nextHand s) _
      · have hr1 := bool_ne_true hr
        by_cases hp : (frameAt s (nextHand s)).pinCnt = 0
        · rw [allocBufLoop_victim s fuel hv1 hr1 hp]
          exact evictFrame_length (advanceClock s) (nextHand s)
        · rw [allocBufLoop_pinned s fuel hv1 hr1 hp]
          exact ih (advanceClock s)

/-- The sweep never touches the frame contents. -/
theorem allocBufLoop_pool : ∀ (fuel : Nat) (s : BufState),
    ((allocBufLoop s fuel).1.1).pool = s.pool := by
  intro fuel
  induction fuel with
  | zero => intro s; rfl
  | succ fuel ih =>
    intro s
    by_cases hv : (frameAt s (nextHand s)).valid = false
    · rw [allocBufLoop_invalid s fuel hv]
    · have hv1 := bool_ne_false hv
      by_cases hr : (frameAt s (nextHand s)).refbit = true
      · rw [allocBufLoop_refbit s fuel hv1 hr]
        exact ih _
      · have hr1 := bool_ne_true hr
        by_cases hp : (frameAt s (nextHand s)).pinCnt = 0
        · rw [allocBufLoop_victim s fuel hv1 hr1 hp]
          exact evictFrame_pool (advanceClock s) (nextHand s)
        · rw [allocBufLoop_pinned s fuel hv1 hr1 hp]
          exact ih (advanceClock s)

/-- The sweep only removes Page Index entries, never adds any. -/
theorem allocBufLoop_hash_sub : ∀ (fuel : Nat) (s : BufState) (e : (Nat × Nat) × Nat),
    e ∈ ((allocBufLoop s fuel).1.1).hash → e ∈ s.hash := by
  intro fuel
  induction fuel with
  | zero => intro s e he; exact he
  | succ fuel ih =>
    intro s e he
    by_cases hv : (frameAt s (nextHand s)).valid = false
    · rw [allocBufLoop_invalid s fuel hv] at he
      exact he
    · have hv1 := bool_ne_false hv
      by_cases hr : (frameAt s (nextHand s)).refbit = true
      · rw [allocBufLoop_refbit s fuel hv1 hr] at he
        have h2 := ih _ e he
        exact h2
      · have hr1 := bool_ne_true hr
        by_cases hp : (frameAt s (nextHand s)).pinCnt = 0
        · rw [allocBufLoop_victim s fuel hv1 hr1 hp] at he
          exact evictFrame_hash_sub (advanceClock s) (nextHand s) he
        · rw [allocBufLoop_pinned s fuel hv1 hr1 hp] at he
          exact ih (advanceClock s) e he

/-- The sweep never changes any file's fresh-page counter. -/
theorem allocBufLoop_nextPage : ∀ (fuel : Nat) (s : BufState) (g : Nat),
    (dget ((allocBufLoop s fuel).1.1).disk g).nextPage = (dget s.disk g).nextPage := by
  intro fuel
  induction fuel with
  | zero => intro s g; rfl
  | succ fuel ih =>
    intro s g
    by_cases hv : (frameAt s (nextHand s)).valid = false
    · rw [allocBufLoop_invalid s fuel hv]
    · have hv1 := bool_ne_false hv
      by_cases hr : (frameAt s (nextHand s)).refbit = true
      · rw [allocBufLoop_refbit s fuel hv1 hr]
        exact ih _ g
      · have hr1 := bool_ne_true hr
        by_cases hp : (frameAt s (nextHand s)).pinCnt = 0
        · rw [allocBufLoop_victim s fuel hv1 hr1 hp]
          exact evictFrame_nextPage (advanceClock s) (nextHand s) g
        · rw [allocBufLoop_pinned s fuel hv1 hr1 hp]
          exact ih (advanceClock s) g

/-- The sweep executes at most fuel iterations. -/
theorem allocBufLoop_steps_le : ∀ (fuel : Nat) (s : BufState),
    (allocBufLoop s fuel).2 ≤ fuel := by
  intro fuel
  induction fuel with
  | zero => intro s; exact Nat.le_refl 0
  | succ fuel ih =>
    intro s
    by_cases hv : (frameAt s (nextHand s)).valid = false
    · rw [allocBufLoop_invalid s fuel hv]
      exact Nat.succ_le_succ (Nat.zero_le fuel)
    · have hv1 := bool_ne_false hv
      by_cases hr : (frameAt s (nextHand s)).refbit = true
      · rw [allocBufLoop_refbit s fuel hv1 hr]
        exact Nat.succ_le_succ (ih _)
      · have hr1 := bool_ne_true hr
        by_cases hp : (frameAt s (nextHand s)).pinCnt = 0
        · rw [allocBufLoop_victim s fuel hv1 hr1 hp]
          exact Nat.succ_le_succ (Nat.zero_le fuel)
        · rw [allocBufLoop_pinned s fuel hv1 hr1 hp]
          exact Nat.succ_le_succ (ih _)

end BufMgr

namespace BufMgr

/-- Descriptor reads after the invalid-frame selection step. -/
theorem frameAt_invalidState (s : BufState) (i : Nat) :
    frameAt { s with clockHand := nextHand s, frames := s.frames.set (nextHand s) BufDesc.Clear } i
      = if nextHand s = i ∧ nextHand s < s.frames.length then BufDesc.Clear else frameAt s i := by
  show (s.frames.set (nextHand s) BufDesc.Clear).getD i BufDesc.Clear = _
  rw [getD_set_cases]
  rfl

/-- Descriptor reads after a reference-bit-clearing step. -/
theorem frameAt_refbitState (s : BufState) (i : Nat) :
    frameAt { s with clockHand := nextHand s, frames := s.frames.set (nextHand s) ({ frameAt s (nextHand s) with refbit := false }) } i
      = if nextHand s = i ∧ nextHand s < s.frames.length then { frameAt s (nextHand s) with refbit := false } else frameAt s i := by
  show (s.frames.set (nextHand s) _).getD i BufDesc.Clear = _
  rw [getD_set_cases]
  rfl

/-- With at least one frame and the hand in range, the advanced hand is in
range. -/
theorem nextHand_lt (s : BufState) (hn : 1 ≤ s.numBufs) (hc : clockOk s) :
    nextHand s < s.numBufs := by
  unfold nextHand
  unfold clockOk at hc
  by_cases he : s.clockHand = s.numBufs - 1
  · simp [he]
    omega
  · simp [he]
    omega

/-- Each frame either keeps its descriptor, loses only its reference bit, or
is the selected victim and ends cleared. -/
theorem allocBufLoop_frames : ∀ (fuel : Nat) (s : BufState) (i : Nat),
    frameAt ((allocBufLoop s fuel).1.1) i = frameAt s i ∨
    frameAt ((allocBufLoop s fuel).1.1) i = { frameAt s i with refbit := false } ∨
    ((allocBufLoop s fuel).1.2 = some i ∧ frameAt ((allocBufLoop s fuel).1.1) i = BufDesc.Clear) := by
  intro fuel
  induction fuel with
  | zero => intro s i; exact Or.inl rfl
  | succ fuel ih =>
    intro s i
    by_cases hv : (frameAt s (nextHand s)).valid = false
    · rw [allocBufLoop_invalid s fuel hv]
      by_cases hin : nextHand s = i ∧ nextHand s < s.frames.length
      · refine Or.inr (Or.inr ⟨?_, ?_⟩)
        · show some (nextHand s) = some i
          rw [hin.1]
        · show frameAt { s with clockHand := nextHand s, frames := s.frames.set (nextHand s) BufDesc.Clear } i = BufDesc.Clear
          rw [frameAt_invalidState, if_pos hin]
      · refine Or.inl ?_
        show frameAt { s with clockHand := nextHand s, frames := s.frames.set (nextHand s) BufDesc.Clear } i = frameAt s i
        rw [frameAt_invalidState, if_neg hin]
    · have hv1 := bool_ne_false hv
      by_cases hr : (frameAt s (nextHand s)).refbit = true
      · rw [allocBufLoop_refbit s fuel hv1 hr]
        have hsu := ih { s with clockHand := nextHand s, frames := s.frames.set (nextHand s) ({ frameAt s (nextHand s) with refbit := false }) } i
        by_cases hin : nextHand s = i ∧ nextHand s < s.frames.length
        · have hfr : frameAt { s with clockHand := nextHand s, frames := s.frames.set (nextHand s) ({ frameAt s (nextHand s) with refbit := false }) } i = { frameAt s i with refbit := false } := by
            rw [frameAt_refbitState, if_pos hin, hin.1]
          rw [hfr] at hsu
          rcases hsu with h1 | h1 | h1
          · exact Or.inr (Or.inl h1)
          · refine Or.inr (Or.inl ?_)
            rw [h1]
          · exact Or.inr (Or.inr h1)
        · have hfr : frameAt { s with clockHand := nextHand s, frames := s.frames.set (nextHand s) ({ frameAt s (nextHand s) with refbit := false }) } i = frameAt s i := by
            rw [frameAt_refbitState, if_neg hin]
          rw [hfr] at hsu
          exact hsu
      · have hr1 := bool_ne_true hr
        by_cases hp : (frameAt s (nextHand s)).pinCnt = 0
        · rw [allocBufLoop_victim s fuel hv1 hr1 hp]
          have hlt : nextHand s < s.numBufs := frameAt_lt_of_valid hv1
          by_cases hin : nextHand s = i
          · refine Or.inr (Or.inr ⟨?_, ?_⟩)
            · show some (nextHand s) = some i
              rw [hin]
            · show frameAt (evictFrame (advanceClock s) (nextHand s)) i = BufDesc.Clear
              rw [evictFrame_frameAt]
              exact if_pos ⟨hin, hlt⟩
          · refine Or.inl ?_
            show frameAt (evictFrame (advanceClock s) (nextHand s)) i = frameAt s i
            rw [evictFrame_frameAt]
            rw [if_neg (fun hh => hin hh.1)]
            rfl
        · rw [allocBufLoop_pinned s fuel hv1 hr1 hp]
          exact ih (advanceClock s) i

/-- The sweep never selects a valid pinned frame: any selected victim was
invalid or had pin count zero already when the sweep started. -/
theorem allocBufLoop_victim_pre : ∀ (fuel : Nat) (s : BufState) (v : Nat),
    (allocBufLoop s fuel).1.2 = some v →
    (frameAt s v).valid = false ∨ (frameAt s v).pinCnt = 0 := by
  intro fuel
  induction fuel with
  | zero => intro s v h; simp [allocBufLoop_zero] at h
  | succ fuel ih =>
    intro s v h
    by_cases hv : (frameAt s (nextHand s)).valid = false
    · rw [allocBufLoop_invalid s fuel hv] at h
      have hveq : nextHand s = v := by
        simpa using h
      rw [← hveq]
      exact Or.inl hv
    · have hv1 := bool_ne_false hv
      by_cases hr : (frameAt s (nextHand s)).refbit = true
      · rw [allocBufLoop_refbit s fuel hv1 hr] at h
        have hsu := ih _ v h
        by_cases hin : nextHand s = v ∧ nextHand s < s.frames.length
        · rw [frameAt_refbitState, if_pos hin, hin.1] at hsu
          rcases hsu with h1 | h1
          · exact Or.inl h1
          · exact Or.inr h1
        · rw [frameAt_refbitState, if_neg hin] at hsu
          exact hsu
      · have hr1 := bool_ne_true hr
        by_cases hp : (frameAt s (nextHand s)).pinCnt = 0
        · rw [allocBufLoop_victim s fuel hv1 hr1 hp] at h
          have hveq : nextHand s = v := by
            simpa using h
          rw [← hveq]
          exact Or.inr hp
        · rw [allocBufLoop_pinned s fuel hv1 hr1 hp] at h
          exact ih (advanceClock s) v h

/-- The selected victim's descriptor ends cleared. -/
theorem allocBufLoop_victim_clear : ∀ (fuel : Nat) (s : BufState) (v : Nat),
    (allocBufLoop s fuel).1.2 = some v →
    frameAt ((allocBufLoop s fuel).1.1) v = BufDesc.Clear := by
  intro fuel
  induction fuel with
  | zero => intro s v h; simp [allocBufLoop_zero] at h
  | succ fuel ih =>
    intro s v h
    by_cases hv : (frameAt s (nextHand s)).valid = false
    · rw [allocBufLoop_invalid s fuel hv] at h ⊢
      have hveq : nextHand s = v := by
        simpa using h
      show frameAt { s with clockHand := nextHand s, frames := s.frames.set (nextHand s) BufDesc.Clear } v = BufDesc.Clear
      rw [frameAt_invalidState]
      by_cases hlen : nextHand s < s.frames.length
      · rw [if_pos ⟨hveq, hlen⟩]
      · rw [if_neg (fun hh => hlen hh.2), ← hveq]
        exact getD_of_le _ _ _ (Nat.le_of_not_lt hlen)
    · have hv1 := bool_ne_false hv
      by_cases hr : (frameAt s (nextHand s)).refbit = true
      · rw [allocBufLoop_refbit s fuel hv1 hr] at h ⊢
        exact ih _ v h
      · have hr1 := bool_ne_true hr
        by_cases hp : (frameAt s (nextHand s)).pinCnt = 0
        · rw [allocBufLoop_victim s fuel hv1 hr1 hp] at h ⊢
          have hveq : nextHand s = v := by
            simpa using h
          have hlt : nextHand s < s.numBufs := frameAt_lt_of_valid hv1
          show frameAt (evictFrame (advanceClock s) (nextHand s)) v = BufDesc.Clear
          rw [evictFrame_frameAt]
          exact if_pos ⟨hveq, hlt⟩
        · rw [allocBufLoop_pinned s fuel hv1 hr1 hp] at h ⊢
          exact ih (advanceClock s) v h

end BufMgr

namespace BufMgr

/-- A failed sweep (BufferExceededException) leaves the Page Index, the log,
the disk untouched and uses exactly its fuel; frames at most lose reference
bits. -/
theorem allocBufLoop_none : ∀ (fuel : Nat) (s : BufState),
    (allocBufLoop s fuel).1.2 = none →
    ((allocBufLoop s fuel).1.1).hash = s.hash ∧
    ((allocBufLoop s fuel).1.1).log = s.log ∧
    ((allocBufLoop s fuel).1.1).disk = s.disk ∧
    (allocBufLoop s fuel).2 = fuel ∧
    (∀ i, frameAt ((allocBufLoop s fuel).1.1) i = frameAt s i ∨
          frameAt ((allocBufLoop s fuel).1.1) i = { frameAt s i with refbit := false }) := by
  intro fuel
  induction fuel with
  | zero =>
    intro s _
    exact ⟨rfl, rfl, rfl, rfl, fun i => Or.inl rfl⟩
  | succ fuel ih =>
    intro s hnone
    by_cases hv : (frameAt s (nextHand s)).valid = false
    · rw [allocBufLoop_invalid s fuel hv] at hnone
      simp at hnone
    · have hv1 := bool_ne_false hv
      by_cases hr : (frameAt s (nextHand s)).refbit = true
      · rw [allocBufLoop_refbit s fuel hv1 hr] at hnone ⊢
        have hsu := ih _ hnone
        refine ⟨hsu.1, hsu.2.1, hsu.2.2.1, ?_, ?_⟩
        · show (allocBufLoop _ fuel).2 + 1 = fuel + 1
          rw [hsu.2.2.2.1]
        · intro i
          by_cases hin : nextHand s = i ∧ nextHand s < s.frames.length
          · obtain ⟨hin1, hin2⟩ := hin
            subst hin1
            have hfr := hsu.2.2.2.2 (nextHand s)
            have hx : frameAt { s with clockHand := nextHand s, frames := s.frames.set (nextHand s) ({ frameAt s (nextHand s) with refbit := false }) } (nextHand s) = { frameAt s (nextHand s) with refbit := false } := by
              rw [frameAt_refbitState, if_pos ⟨rfl, hin2⟩]
            rw [hx] at hfr
            rcases hfr with h1 | h1
            · exact Or.inr h1
            · refine Or.inr ?_
              rw [h1]
          · have hfr := hsu.2.2.2.2 i
            have hx : frameAt { s with clockHand := nextHand s, frames := s.frames.set (nextHand s) ({ frameAt s (nextHand s) with refbit := false }) } i = frameAt s i := by
              rw [frameAt_refbitState, if_neg hin]
            rw [hx] at hfr
            exact hfr
      · have hr1 := bool_ne_true hr
        by_cases hp : (frameAt s (nextHand s)).pinCnt = 0
        · rw [allocBufLoop_victim s fuel hv1 hr1 hp] at hnone
          simp at hnone
        · rw [allocBufLoop_pinned s fuel hv1 hr1 hp] at hnone ⊢
          have hsu := ih _ hnone
          refine ⟨hsu.1, hsu.2.1, hsu.2.2.1, ?_, hsu.2.2.2.2⟩
          show (allocBufLoop _ fuel).2 + 1 = fuel + 1
          rw [hsu.2.2.2.1]

/-- Eviction effect of a sweep that selects a valid victim: the victim's
(file, pageNumber) entry is removed from the Page Index, and exactly when the
victim was dirty its contents are written back via the File collaborator. -/
theorem allocBufLoop_victim_valid : ∀ (fuel : Nat) (s : BufState) (v : Nat),
    (allocBufLoop s fuel).1.2 = some v →
    (frameAt s v).valid = true →
    ((allocBufLoop s fuel).1.1).hash
        = hremove s.hash ((frameAt s v).fileId.getD 0) ((frameAt s v).pageNo.getD 0) ∧
    ((frameAt s v).dirty = true →
      ((allocBufLoop s fuel).1.1).log = ((frameAt s v).fileId.getD 0, poolAt s v) :: s.log ∧
      ((allocBufLoop s fuel).1.1).disk
        = dset s.disk ((frameAt s v).fileId.getD 0)
            ((dget s.disk ((frameAt s v).fileId.getD 0)).writePage (poolAt s v))) ∧
    ((frameAt s v).dirty = false →
      ((allocBufLoop s fuel).1.1).log = s.log ∧
      ((allocBufLoop s fuel).1.1).disk = s.disk) := by
  intro fuel
  induction fuel with
  | zero => intro s v h; simp [allocBufLoop_zero] at h
  | succ fuel ih =>
    intro s v h hvalid
    by_cases hv : (frameAt s (nextHand s)).valid = false
    · rw [allocBufLoop_invalid s fuel hv] at h
      have hveq : nextHand s = v := by
        simpa using h
      rw [hveq] at hv
      rw [hvalid] at hv
      exact absurd hv (by simp)
    · have hv1 := bool_ne_false hv
      by_cases hr : (frameAt s (nextHand s)).refbit = true
      · rw [allocBufLoop_refbit s fuel hv1 hr] at h ⊢
        by_cases hin : nextHand s = v ∧ nextHand s < s.frames.length
        · have hfr : frameAt { s with clockHand := nextHand s, frames := s.frames.set (nextHand s) ({ frameAt s (nextHand s) with refbit := false }) } v = { frameAt s v with refbit := false } := by
            rw [frameAt_refbitState, if_pos hin, hin.1]
          have hsu := ih _ v h (by rw [hfr]; exact hvalid)
          rw [hfr] at hsu
          exact hsu
        · have hfr : frameAt { s with clockHand := nextHand s, frames := s.frames.set (nextHand s) ({ frameAt s (nextHand s) with refbit := false }) } v = frameAt s v := by
            rw [frameAt_refbitState, if_neg hin]
          have hsu := ih _ v h (by rw [hfr]; exact hvalid)
          rw [hfr] at hsu
          exact hsu
      · have hr1 := bool_ne_true hr
        by_cases hp : (frameAt s (nextHand s)).pinCnt = 0
        · rw [allocBufLoop_victim s fuel hv1 hr1 hp] at h ⊢
          have hveq : nextHand s = v := by
            simpa using h
          subst hveq
          cases hd : (frameAt s (nextHand s)).dirty
          · rw [show evictFrame (advanceClock s) (nextHand s) = { advanceClock s with hash := hremove (advanceClock s).hash ((frameAt (advanceClock s) (nextHand s)).fileId.getD 0) ((frameAt (advanceClock s) (nextHand s)).pageNo.getD 0), frames := (advanceClock s).frames.set (nextHand s) BufDesc.Clear } from evictFrame_clean (advanceClock s) (nextHand s) hd]
            exact ⟨rfl, fun hdd => absurd hdd (by simp), fun _ => ⟨rfl, rfl⟩⟩
          · rw [show evictFrame (advanceClock s) (nextHand s) = { advanceClock s with disk := dset (advanceClock s).disk ((frameAt (advanceClock s) (nextHand s)).fileId.getD 0) ((dget (advanceClock s).disk ((frameAt (advanceClock s) (nextHand s)).fileId.getD 0)).writePage (poolAt (advanceClock s) (nextHand s))), log := ((frameAt (advanceClock s) (nextHand s)).fileId.getD 0, poolAt (advanceClock s) (nextHand s)) :: (advanceClock s).log, hash := hremove (advanceClock s).hash ((frameAt (advanceClock s) (nextHand s)).fileId.getD 0) ((frameAt (advanceClock s) (nextHand s)).pageNo.getD 0), frames := (advanceClock s).frames.set (nextHand s) BufDesc.Clear } from evictFrame_dirty (advanceClock s) (nextHand s) hd]
            exact ⟨rfl, fun _ => ⟨rfl, rfl⟩, fun hdd => absurd hdd (by simp)⟩
        · rw [allocBufLoop_pinned s fuel hv1 hr1 hp] at h ⊢
          exact ih (advanceClock s) v h hvalid

/-- With a nonempty pool and the hand in range, the sweep keeps the hand in
range and any selected victim is a real frame index. -/
theorem allocBufLoop_hand : ∀ (fuel : Nat) (s : BufState), 1 ≤ s.numBufs → clockOk s →
    clockOk ((allocBufLoop s fuel).1.1) ∧
    (∀ v, (allocBufLoop s fuel).1.2 = some v → v < s.numBufs) := by
  intro fuel
  induction fuel with
  | zero =>
    intro s hn hc
    exact ⟨hc, fun v h => by simp [allocBufLoop_zero] at h⟩
  | succ fuel ih =>
    intro s hn hc
    have hnh := nextHand_lt s hn hc
    by_cases hv : (frameAt s (nextHand s)).valid = false
    · rw [allocBufLoop_invalid s fuel hv]
      constructor
      · show nextHand s < (s.frames.set (nextHand s) BufDesc.Clear).length
        rw [List.length_set]
        exact hnh
      · intro v hveq
        have : nextHand s = v := by simpa using hveq
        rw [← this]
        exact hnh
    · have hv1 := bool_ne_false hv
      by_cases hr : (frameAt s (nextHand s)).refbit = true
      · rw [allocBufLoop_refbit s fuel hv1 hr]
        have hlen : ({ s with clockHand := nextHand s, frames := s.frames.set (nextHand s) ({ frameAt s (nextHand s) with refbit := false }) } : BufState).numBufs = s.numBufs :=
          List.length_set s.frames (nextHand s) _
        have hsu := ih { s with clockHand := nextHand s, frames := s.frames.set (nextHand s) ({ frameAt s (nextHand s) with refbit := false }) } (by rw [hlen]; exact hn) (by show nextHand s < _; rw [hlen]; exact hnh)
        refine ⟨hsu.1, fun v hveq => ?_⟩
        have := hsu.2 v hveq
        rw [hlen] at this
        exact this
      · have hr1 := bool_ne_true hr
        by_cases hp : (frameAt s (nextHand s)).pinCnt = 0
        · rw [allocBufLoop_victim s fuel hv1 hr1 hp]
          constructor
          · show (evictFrame (advanceClock s) (nextHand s)).clockHand < (evictFrame (advanceClock s) (nextHand s)).numBufs
            rw [evictFrame_clockHand]
            show nextHand s < (evictFrame (advanceClock s) (nextHand s)).frames.length
            rw [evictFrame_length]
            exact hnh
          · intro v hveq
            have : nextHand s = v := by simpa using hveq
            rw [← this]
            exact hnh
        · rw [allocBufLoop_pinned s fuel hv1 hr1 hp]
          exact ih (advanceClock s) hn (by show nextHand s < s.numBufs; exact hnh)

/-- When every frame is valid and pinned, the sweep never selects a victim. -/
theorem allocBufLoop_allpinned : ∀ (fuel : Nat) (s : BufState), 1 ≤ s.numBufs → clockOk s →
    (∀ i < s.numBufs, (frameAt s i).valid = true ∧ (frameAt s i).pinCnt ≠ 0) →
    (allocBufLoop s fuel).1.2 = none := by
  intro fuel
  induction fuel with
  | zero => intro s _ _ _; rfl
  | succ fuel ih =>
    intro s hn hc hall
    have hnh := nextHand_lt s hn hc
    have hhand := hall (nextHand s) hnh
    by_cases hr : (frameAt s (nextHand s)).refbit = true
    · rw [allocBufLoop_refbit s fuel hhand.1 hr]
      have hlen : ({ s with clockHand := nextHand s, frames := s.frames.set (nextHand s) ({ frameAt s (nextHand s) with refbit := false }) } : BufState).numBufs = s.numBufs :=
        List.length_set s.frames (nextHand s) _
      show (allocBufLoop _ fuel).1.2 = none
      refine ih _ (by rw [hlen]; exact hn) (by show nextHand s < _; rw [hlen]; exact hnh) ?_
      intro i hi
      rw [hlen] at hi
      have := hall i hi
      by_cases hin : nextHand s = i ∧ nextHand s < s.frames.length
      · rw [frameAt_refbitState, if_pos hin]
        exact ⟨hhand.1, hhand.2⟩
      · rw [frameAt_refbitState, if_neg hin]
        exact this
    · have hr1 := bool_ne_true hr
      rw [allocBufLoop_pinned s fuel hhand.1 hr1 hhand.2]
      show (allocBufLoop (advanceClock s) fuel).1.2 = none
      exact ih (advanceClock s) hn (by show nextHand s < s.numBufs; exact hnh) hall

end BufMgr

namespace BufMgr

/-- A residue below twice the modulus vanishes exactly at zero and at the
modulus itself. -/
theorem mod_zero_cases (x n : Nat) (hn : 0 < n) (hx : x < 2 * n) :
    x % n = 0 ↔ x = 0 ∨ x = n := by
  constructor
  · intro h
    by_cases hlt : x < n
    · rw [Nat.mod_eq_of_lt hlt] at h
      exact Or.inl h
    · have hle : n ≤ x := Nat.le_of_not_lt hlt
      rw [Nat.mod_eq_sub_mod hle] at h
      rw [Nat.mod_eq_of_lt (by omega)] at h
      exact Or.inr (by omega)
  · rintro (rfl | rfl)
    · exact Nat.zero_mod _
    · exact Nat.mod_self _

/-- The sweep distance is always at least one. -/
theorem cdist_pos (n hand j : Nat) : 1 ≤ cdist n hand j := by
  unfold cdist
  omega

/-- The sweep distance is at most the pool size. -/
theorem cdist_le (n hand j : Nat) (hn : 0 < n) : cdist n hand j ≤ n := by
  unfold cdist
  have := Nat.mod_lt (j + n - (hand + 1)) hn
  omega

/-- Frame j is one step away exactly when it is the frame just after the
hand. -/
theorem cdist_eq_one_iff (n hand j : Nat) (hh : hand < n) (hj : j < n) :
    cdist n hand j = 1 ↔ j = (if hand = n - 1 then 0 else hand + 1) := by
  unfold cdist
  have hn : 0 < n := by omega
  constructor
  · intro h
    have hx0 : (j + n - (hand + 1)) % n = 0 := by omega
    rw [mod_zero_cases _ _ hn (by omega)] at hx0
    by_cases he : hand = n - 1
    · rw [if_pos he]
      omega
    · rw [if_neg he]
      omega
  · intro h
    by_cases he : hand = n - 1
    · rw [if_pos he] at h
      subst h
      have h1 : 0 + n - (hand + 1) = 0 := by omega
      rw [h1, Nat.zero_mod]
    · rw [if_neg he] at h
      subst h
      have h1 : hand + 1 + n - (hand + 1) = n := by omega
      rw [h1, Nat.mod_self]

/-- After the hand was just at frame j, a full lap is needed to revisit j. -/
theorem cdist_self (n j : Nat) (hj : j < n) : cdist n j j = n := by
  unfold cdist
  have h1 : j + n - (j + 1) = n - 1 := by omega
  rw [h1, Nat.mod_eq_of_lt (by omega)]
  omega

/-- Advancing the hand by one step decreases the distance to any frame that
is not the very next one. -/
theorem cdist_dec (n hand j : Nat) (hh : hand < n) (hj : j < n)
    (hne : cdist n hand j ≠ 1) :
    cdist n (if hand = n - 1 then 0 else hand + 1) j + 1 = cdist n hand j := by
  have hn : 0 < n := by omega
  unfold cdist at *
  by_cases he : hand = n - 1
  · rw [if_pos he] at *
    have h1 : j + n - (hand + 1) = j := by omega
    rw [h1, Nat.mod_eq_of_lt hj] at hne ⊢
    have hj1 : 1 ≤ j := by omega
    have h2 : j + n - (0 + 1) = (j - 1) + n := by omega
    rw [h2, Nat.add_mod_right, Nat.mod_eq_of_lt (by omega)]
    omega
  · rw [if_neg he]
    have hh1 : hand + 1 < n := by omega
    have hne0 : (j + n - (hand + 1)) % n ≠ 0 := by omega
    by_cases hlt : j + n - (hand + 1) < n
    · rw [Nat.mod_eq_of_lt hlt] at hne0 ⊢
      have h2 : j + n - (hand + 1 + 1) = (j + n - (hand + 1)) - 1 := by omega
      rw [h2, Nat.mod_eq_of_lt (by omega)]
      omega
    · have hge : n ≤ j + n - (hand + 1) := Nat.le_of_not_lt hlt
      rw [Nat.mod_eq_sub_mod hge, Nat.mod_eq_of_lt (by omega)] at hne0
      have h2 : j + n - (hand + 1 + 1) = ((j + n - (hand + 1)) - 1 - n) + n := by omega
      rw [h2, Nat.add_mod_right, Nat.mod_eq_of_lt (by omega)]
      rw [Nat.mod_eq_sub_mod hge, Nat.mod_eq_of_lt (by omega)]
      omega

/-- Frame j is visited next exactly when it is the advanced hand position. -/
theorem sweepDist_eq_one_iff (s : BufState) (j : Nat) (hc : clockOk s)
    (hj : j < s.numBufs) : sweepDist s j = 1 ↔ j = nextHand s :=
  cdist_eq_one_iff s.numBufs s.clockHand j hc hj

end BufMgr

namespace BufMgr

/-- Whenever some frame is invalid or unpinned, the sweep selects a victim
given fuel at least that frame's sweep cost (its distance, plus one full lap
if its reference bit must first be cleared). -/
theorem allocBufLoop_finds : ∀ (fuel : Nat) (s : BufState) (j : Nat),
    clockOk s → j < s.numBufs →
    ((frameAt s j).valid = false ∨ (frameAt s j).pinCnt = 0) →
    sweepCost s j ≤ fuel →
    ((allocBufLoop s fuel).1.2).isSome = true := by
  intro fuel
  induction fuel with
  | zero =>
    intro s j _ _ _ hcost
    have := cdist_pos s.numBufs s.clockHand j
    unfold sweepCost sweepDist at hcost
    omega
  | succ fuel ih =>
    intro s j hclock hj hsel hcost
    have hn : 0 < s.numBufs := by omega
    have hnh : nextHand s < s.numBufs := nextHand_lt s hn hclock
    by_cases hv : (frameAt s (nextHand s)).valid = false
    · rw [allocBufLoop_invalid s fuel hv]
      rfl
    · have hv1 := bool_ne_false hv
      by_cases hd1 : sweepDist s j = 1
      · have hj1 : j = nextHand s := (sweepDist_eq_one_iff s j hclock hj).mp hd1
        subst hj1
        have hpin : (frameAt s (nextHand s)).pinCnt = 0 := by
          rcases hsel with h1 | h1
          · simp [hv1] at h1
          · exact h1
        by_cases hrb : (frameAt s (nextHand s)).refbit = true
        · rw [allocBufLoop_refbit s fuel hv1 hrb]
          have hfr : frameAt { s with clockHand := nextHand s, frames := s.frames.set (nextHand s) ({ frameAt s (nextHand s) with refbit := false }) } (nextHand s) = { frameAt s (nextHand s) with refbit := false } := by
            rw [frameAt_refbitState, if_pos ⟨rfl, hnh⟩]
          have hlen : ({ s with clockHand := nextHand s, frames := s.frames.set (nextHand s) ({ frameAt s (nextHand s) with refbit := false }) } : BufState).numBufs = s.numBufs :=
            List.length_set s.frames (nextHand s) _
          refine ih { s with clockHand := nextHand s, frames := s.frames.set (nextHand s) ({ frameAt s (nextHand s) with refbit := false }) } (nextHand s) ?_ ?_ ?_ ?_
          · show nextHand s < _
            rw [hlen]
            exact hnh
          · rw [hlen]
            exact hnh
          · refine Or.inr ?_
            rw [hfr]
            exact hpin
          · have hsd : sweepDist { s with clockHand := nextHand s, frames := s.frames.set (nextHand s) ({ frameAt s (nextHand s) with refbit := false }) } (nextHand s) = s.numBufs := by
              show cdist _ (nextHand s) (nextHand s) = s.numBufs
              rw [hlen]
              exact cdist_self s.numBufs (nextHand s) hnh
            have hx : sweepCost s (nextHand s) = 1 + s.numBufs := by
              unfold sweepCost
              rw [hd1, if_pos ⟨hv1, hrb⟩]
            unfold sweepCost
            rw [hfr, hsd, if_neg (by simp)]
            omega
        · rw [allocBufLoop_victim s fuel hv1 (bool_ne_true hrb) hpin]
          rfl
      · have hd2 : 2 ≤ sweepDist s j := by
          have := cdist_pos s.numBufs s.clockHand j
          unfold sweepDist at hd1 ⊢
          omega
        have hjne : ¬ (nextHand s = j) := by
          intro hh
          exact hd1 ((sweepDist_eq_one_iff s j hclock hj).mpr hh.symm)
        by_cases hrb : (frameAt s (nextHand s)).refbit = true
        · rw [allocBufLoop_refbit s fuel hv1 hrb]
          have hfrj : frameAt { s with clockHand := nextHand s, frames := s.frames.set (nextHand s) ({ frameAt s (nextHand s) with refbit := false }) } j = frameAt s j := by
            rw [frameAt_refbitState, if_neg (fun hh => hjne hh.1)]
          have hlen : ({ s with clockHand := nextHand s, frames := s.frames.set (nextHand s) ({ frameAt s (nextHand s) with refbit := false }) } : BufState).numBufs = s.numBufs :=
            List.length_set s.frames (nextHand s) _
          refine ih { s with clockHand := nextHand s, frames := s.frames.set (nextHand s) ({ frameAt s (nextHand s) with refbit := false }) } j ?_ ?_ ?_ ?_
          · show nextHand s < _
            rw [hlen]
            exact hnh
          · rw [hlen]
            exact hj
          · rw [hfrj]
            exact hsel
          · have hsd : sweepDist { s with clockHand := nextHand s, frames := s.frames.set (nextHand s) ({ frameAt s (nextHand s) with refbit := false }) } j + 1 = sweepDist s j := by
              show cdist _ (nextHand s) j + 1 = _
              rw [hlen]
              exact cdist_dec s.numBufs s.clockHand j hclock hj hd1
            unfold sweepCost at hcost ⊢
            rw [hfrj]
            by_cases hRc : (frameAt s j).valid = true ∧ (frameAt s j).refbit = true
            · rw [if_pos hRc] at hcost ⊢
              omega
            · rw [if_neg hRc] at hcost ⊢
              omega
        · have hrb1 := bool_ne_true hrb
          by_cases hp : (frameAt s (nextHand s)).pinCnt = 0
          · rw [allocBufLoop_victim s fuel hv1 hrb1 hp]
            rfl
          · rw [allocBufLoop_pinned s fuel hv1 hrb1 hp]
            refine ih (advanceClock s) j ?_ ?_ ?_ ?_
            · show nextHand s < s.numBufs
              exact hnh
            · exact hj
            · exact hsel
            · have hsd : sweepDist (advanceClock s) j + 1 = sweepDist s j :=
                cdist_dec s.numBufs s.clockHand j hclock hj hd1
              unfold sweepCost at hcost
              show sweepDist (advanceClock s) j + (if (frameAt s j).valid = true ∧ (frameAt s j).refbit = true then s.numBufs else 0) ≤ fuel
              by_cases hRc : (frameAt s j).valid = true ∧ (frameAt s j).refbit = true
              · rw [if_pos hRc] at hcost ⊢
                omega
              · rw [if_neg hRc] at hcost ⊢
                omega

end BufMgr

namespace BufMgr

/-- BufMgr::allocBuf fails (BufferExceededException) exactly when every frame
is valid and pinned. -/
theorem allocBuf_none_iff (s : BufState) (hn : 1 ≤ s.numBufs) (hc : clockOk s) :
    (allocBuf s).1.2 = none ↔
      ∀ i < s.numBufs, (frameAt s i).valid = true ∧ (frameAt s i).pinCnt ≠ 0 := by
  constructor
  · intro hnone i hi
    by_contra hcon
    have hsel : (frameAt s i).valid = false ∨ (frameAt s i).pinCnt = 0 := by
      by_cases hvv : (frameAt s i).valid = true
      · refine Or.inr ?_
        by_contra hpp
        exact hcon ⟨hvv, hpp⟩
      · exact Or.inl (bool_ne_true hvv)
    have hcost : sweepCost s i ≤ 2 * s.numBufs + 1 := by
      unfold sweepCost
      have hle : sweepDist s i ≤ s.numBufs := cdist_le _ _ _ (by omega)
      by_cases hRc : (frameAt s i).valid = true ∧ (frameAt s i).refbit = true
      · rw [if_pos hRc]
        omega
      · rw [if_neg hRc]
        omega
    have hfound := allocBufLoop_finds (2 * s.numBufs + 1) s i hc hi hsel hcost
    unfold allocBuf at hnone
    rw [hnone] at hfound
    simp at hfound
  · intro hall
    exact allocBufLoop_allpinned (2 * s.numBufs + 1) s hn hc hall

/-- Every valid frame is an intact on-disk file entry for lookup. -/
theorem fileWF_dget (d : List (Nat × DiskFile)) (f : Nat) (h : diskWF d) :
    fileWF (dget d f) := by
  induction d with
  | nil =>
    intro e he
    simp [dget] at he
  | cons x t ih =>
    obtain ⟨g, df⟩ := x
    by_cases hg : g = f
    · rw [dget, if_pos hg]
      exact h (g, df) (List.mem_cons_self _ _)
    · rw [dget, if_neg hg]
      exact ih (fun e he => h e (List.mem_cons_of_mem _ he))

/-- Writing an existing page keeps a file well formed. -/
theorem fileWF_writePage (df : DiskFile) (pg : Page) (h : fileWF df) :
    fileWF (df.writePage pg) := by
  intro e he
  obtain ⟨d0, hd0⟩ := mem_pwrite he
  exact h (e.1, d0) hd0

/-- Deleting a page keeps a file well formed. -/
theorem fileWF_deletePage (df : DiskFile) (p : Nat) (h : fileWF df) :
    fileWF (df.deletePage p) := by
  intro e he
  exact h e (mem_pdelete he)

/-- Allocating a fresh page keeps a file well formed. -/
theorem fileWF_allocatePage (df : DiskFile) (h : fileWF df) :
    fileWF df.allocatePage.2 := by
  intro e he
  show e.1 < df.nextPage + 1
  rcases List.mem_cons.mp he with h1 | h1
  · rw [h1]
    exact Nat.lt_succ_self _
  · exact Nat.lt_succ_of_lt (h e h1)

/-- Updating one file with a well-formed replacement keeps the disk well
formed. -/
theorem diskWF_dset (d : List (Nat × DiskFile)) (f : Nat) (df : DiskFile)
    (hd : diskWF d) (hdf : fileWF df) : diskWF (dset d f df) := by
  intro e he
  rcases mem_dset he with h1 | h1
  · rw [h1]
    exact hdf
  · exact hd e h1

/-- Eviction removes exactly the victim's key from the Page Index. -/
theorem evictFrame_hash (s : BufState) (id : Nat) :
    (evictFrame s id).hash
      = hremove s.hash ((frameAt s id).fileId.getD 0) ((frameAt s id).pageNo.getD 0) := by
  cases h : (frameAt s id).dirty
  · rw [evictFrame_clean s id h]
  · rw [evictFrame_dirty s id h]

/-- Eviction keeps the disk well formed. -/
theorem evictFrame_diskWF (s : BufState) (id : Nat) (h : diskWF s.disk) :
    diskWF (evictFrame s id).disk := by
  cases hd : (frameAt s id).dirty
  · rw [evictFrame_clean s id hd]
    exact h
  · rw [evictFrame_dirty s id hd]
    exact diskWF_dset _ _ _ h (fileWF_writePage _ _ (fileWF_dget _ _ h))

/-- Evicting a valid frame preserves the pool invariant. -/
theorem inv_evictFrame (s : BufState) (id : Nat) (hInv : Inv s)
    (hvalid : (frameAt s id).valid = true) : Inv (evictFrame s id) := by
  obtain ⟨hn, hc, h1, h2, h3, h4, h5⟩ := hInv
  have hid : id < s.numBufs := frameAt_lt_of_valid hvalid
  have hlen : (evictFrame s id).numBufs = s.numBufs := evictFrame_length s id
  have hhash := evictFrame_hash s id
  refine ⟨?_, ?_, ?_, ?_, ?_, ?_, evictFrame_diskWF s id h5⟩
  · rw [hlen]
    exact hn
  · show (evictFrame s id).clockHand < (evictFrame s id).numBufs
    rw [hlen, evictFrame_clockHand]
    exact hc
  · intro e he
    rw [hhash] at he
    obtain ⟨hes, hek⟩ := mem_hremove.mp he
    have hre := h1 e hes
    have hne : ¬ (id = e.2) := by
      intro hide
      refine hek ?_
      have hf0 : (frameAt s id).fileId.getD 0 = e.1.1 := by
        rw [hide, hre.2.2.1]
        rfl
      have hp0 : (frameAt s id).pageNo.getD 0 = e.1.2 := by
        rw [hide, hre.2.2.2]
        rfl
      rw [show e.1 = (e.1.1, e.1.2) from rfl, ← hf0, ← hp0]
    rw [hlen, evictFrame_frameAt, if_neg (fun hh => hne hh.1)]
    exact hre
  · intro i hi hval
    rw [hlen] at hi
    rw [evictFrame_frameAt] at hval ⊢
    by_cases hcz : id = i ∧ id < s.numBufs
    · rw [if_pos hcz] at hval
      exact absurd hval (by simp [BufDesc.Clear])
    · rw [if_neg hcz] at hval ⊢
      have hki := h2 i hi hval
      rw [hhash]
      have hne : ((frameAt s i).fileId.getD 0, (frameAt s i).pageNo.getD 0)
          ≠ ((frameAt s id).fileId.getD 0, (frameAt s id).pageNo.getD 0) := by
        intro heq
        injection heq with hq1 hq2
        have hki2 := hki
        rw [hq1, hq2, h2 id hid hvalid] at hki2
        have hii : id = i := by
          simpa using hki2
        exact hcz ⟨hii, hid⟩
      rw [hlookup_hremove_ne _ _ _ _ _ hne]
      exact hki
  · intro i hi hval
    rw [hlen] at hi
    rw [evictFrame_frameAt] at hval ⊢
    by_cases hcz : id = i ∧ id < s.numBufs
    · rw [if_pos hcz] at hval ⊢
    · rw [if_neg hcz] at hval ⊢
      exact h3 i hi hval
  · intro i hi hval
    rw [hlen] at hi
    rw [evictFrame_frameAt] at hval ⊢
    by_cases hcz : id = i ∧ id < s.numBufs
    · rw [if_pos hcz] at hval
      exact absurd hval (by simp [BufDesc.Clear])
    · rw [if_neg hcz] at hval ⊢
      have := h4 i hi hval
      rw [evictFrame_nextPage]
      exact this

end BufMgr

namespace BufMgr

/-- Advancing the clock hand preserves the invariant. -/
theorem inv_advanceClock (s : BufState) (hInv : Inv s) : Inv (advanceClock s) := by
  obtain ⟨hn, hc, h1, h2, h3, h4, h5⟩ := hInv
  exact ⟨hn, nextHand_lt s hn hc, h1, h2, h3, h4, h5⟩

/-- Clearing an invalid frame under the hand preserves the invariant. -/
theorem inv_invalidState (s : BufState) (hInv : Inv s)
    (hv : (frameAt s (nextHand s)).valid = false) :
    Inv { s with clockHand := nextHand s, frames := s.frames.set (nextHand s) BufDesc.Clear } := by
  obtain ⟨hn, hc, h1, h2, h3, h4, h5⟩ := hInv
  have hlen : ({ s with clockHand := nextHand s, frames := s.frames.set (nextHand s) BufDesc.Clear } : BufState).numBufs = s.numBufs :=
    List.length_set s.frames (nextHand s) _
  have hnh : nextHand s < s.numBufs := nextHand_lt s hn hc
  refine ⟨?_, ?_, ?_, ?_, ?_, ?_, h5⟩
  · rw [hlen]
    exact hn
  · show nextHand s < _
    rw [hlen]
    exact hnh
  · intro e he
    have hre := h1 e he
    have hne : ¬ (nextHand s = e.2) := by
      intro hh
      rw [← hh] at hre
      rw [hv] at hre
      exact absurd hre.2.1 (by simp)
    rw [hlen, frameAt_invalidState, if_neg (fun hh => hne hh.1)]
    exact hre
  · intro i hi hval
    rw [hlen] at hi
    rw [frameAt_invalidState] at hval ⊢
    by_cases hcz : nextHand s = i ∧ nextHand s < s.frames.length
    · rw [if_pos hcz] at hval
      exact absurd hval (by simp [BufDesc.Clear])
    · rw [if_neg hcz] at hval ⊢
      exact h2 i hi hval
  · intro i hi hval
    rw [hlen] at hi
    rw [frameAt_invalidState] at hval ⊢
    by_cases hcz : nextHand s = i ∧ nextHand s < s.frames.length
    · rw [if_pos hcz] at hval ⊢
    · rw [if_neg hcz] at hval ⊢
      exact h3 i hi hval
  · intro i hi hval
    rw [hlen] at hi
    rw [frameAt_invalidState] at hval ⊢
    by_cases hcz : nextHand s = i ∧ nextHand s < s.frames.length
    · rw [if_pos hcz] at hval
      exact absurd hval (by simp [BufDesc.Clear])
    · rw [if_neg hcz] at hval ⊢
      exact h4 i hi hval

/-- Clearing a reference bit changes no other descriptor field. -/
theorem frameAt_refbitState_fields (s : BufState) (i : Nat) :
    (frameAt { s with clockHand := nextHand s, frames := s.frames.set (nextHand s) ({ frameAt s (nextHand s) with refbit := false }) } i).valid = (frameAt s i).valid ∧
    (frameAt { s with clockHand := nextHand s, frames := s.frames.set (nextHand s) ({ frameAt s (nextHand s) with refbit := false }) } i).fileId = (frameAt s i).fileId ∧
    (frameAt { s with clockHand := nextHand s, frames := s.frames.set (nextHand s) ({ frameAt s (nextHand s) with refbit := false }) } i).pageNo = (frameAt s i).pageNo ∧
    (frameAt { s with clockHand := nextHand s, frames := s.frames.set (nextHand s) ({ frameAt s (nextHand s) with refbit := false }) } i).pinCnt = (frameAt s i).pinCnt ∧
    (frameAt { s with clockHand := nextHand s, frames := s.frames.set (nextHand s) ({ frameAt s (nextHand s) with refbit := false }) } i).dirty = (frameAt s i).dirty := by
  rw [frameAt_refbitState]
  by_cases hcz : nextHand s = i ∧ nextHand s < s.frames.length
  · rw [if_pos hcz]
    simp [hcz.1]
  · rw [if_neg hcz]
    exact ⟨rfl, rfl, rfl, rfl, rfl⟩

/-- Clearing the reference bit of a valid frame under the hand preserves the
invariant. -/
theorem inv_refbitState (s : BufState) (hInv : Inv s) :
    Inv { s with clockHand := nextHand s, frames := s.frames.set (nextHand s) ({ frameAt s (nextHand s) with refbit := false }) } := by
  obtain ⟨hn, hc, h1, h2, h3, h4, h5⟩ := hInv
  have hlen : ({ s with clockHand := nextHand s, frames := s.frames.set (nextHand s) ({ frameAt s (nextHand s) with refbit := false }) } : BufState).numBufs = s.numBufs :=
    List.length_set s.frames (nextHand s) _
  have hnh : nextHand s < s.numBufs := nextHand_lt s hn hc
  refine ⟨?_, ?_, ?_, ?_, ?_, ?_, h5⟩
  · rw [hlen]
    exact hn
  · show nextHand s < _
    rw [hlen]
    exact hnh
  · intro e he
    have hre := h1 e he
    have hfs := frameAt_refbitState_fields s e.2
    rw [hlen, hfs.1, hfs.2.1, hfs.2.2.1]
    exact hre
  · intro i hi hval
    rw [hlen] at hi
    have hfs := frameAt_refbitState_fields s i
    rw [hfs.1] at hval
    rw [hfs.2.1, hfs.2.2.1]
    exact h2 i hi hval
  · intro i hi hval
    rw [hlen] at hi
    have hfs := frameAt_refbitState_fields s i
    rw [hfs.1] at hval
    have hclear := h3 i hi hval
    rw [frameAt_refbitState]
    by_cases hcz : nextHand s = i ∧ nextHand s < s.frames.length
    · rw [if_pos hcz, hcz.1, hclear]
      rfl
    · rw [if_neg hcz]
      exact hclear
  · intro i hi hval
    rw [hlen] at hi
    have hfs := frameAt_refbitState_fields s i
    rw [hfs.1] at hval
    rw [hfs.2.1, hfs.2.2.1]
    exact h4 i hi hval

/-- The sweep preserves the pool invariant. -/
theorem inv_allocBufLoop : ∀ (fuel : Nat) (s : BufState), Inv s →
    Inv ((allocBufLoop s fuel).1.1) := by
  intro fuel
  induction fuel with
  | zero => intro s h; exact h
  | succ fuel ih =>
    intro s hInv
    by_cases hv : (frameAt s (nextHand s)).valid = false
    · rw [allocBufLoop_invalid s fuel hv]
      exact inv_invalidState s hInv hv
    · have hv1 := bool_ne_false hv
      by_cases hr : (frameAt s (nextHand s)).refbit = true
      · rw [allocBufLoop_refbit s fuel hv1 hr]
        exact ih _ (inv_refbitState s hInv)
      · have hr1 := bool_ne_true hr
        by_cases hp : (frameAt s (nextHand s)).pinCnt = 0
        · rw [allocBufLoop_victim s fuel hv1 hr1 hp]
          exact inv_evictFrame (advanceClock s) (nextHand s) (inv_advanceClock s hInv) hv1
        · rw [allocBufLoop_pinned s fuel hv1 hr1 hp]
          exact ih (advanceClock s) (inv_advanceClock s hInv)

/-- BufMgr::allocBuf preserves the pool invariant. -/
theorem inv_allocBuf (s : BufState) (hInv : Inv s) : Inv ((allocBuf s).1.1) :=
  inv_allocBufLoop (2 * s.numBufs + 1) s hInv

end BufMgr

namespace BufMgr

/-- Lookup of the inserted key finds the new entry. -/
theorem hlookup_cons_self (h : List ((Nat × Nat) × Nat)) (f p id : Nat) :
    hlookup (((f, p), id) :: h) f p = some id := by
  simp [hlookup]

/-- Insertion of one key does not change lookups of other keys. -/
theorem hlookup_cons_ne (h : List ((Nat × Nat) × Nat)) (f p id f' p' : Nat)
    (hne : ((f, p) : Nat × Nat) ≠ (f', p')) :
    hlookup (((f, p), id) :: h) f' p' = hlookup h f' p' := by
  simp [hlookup, hne]

/-- BufMgr::readPage on a Page Index hit. -/
theorem readPage_hit (s : BufState) (f p id : Nat) (h : hlookup s.hash f p = some id) :
    readPage s f p = ({ s with frames := s.frames.set id ({ frameAt s id with refbit := true, pinCnt := (frameAt s id).pinCnt + 1 }) }, .ok id) := by
  simp [readPage, h]

/-- BufMgr::readPage on a miss with every frame pinned: the failed sweep's
state is returned with BufferExceededException. -/
theorem readPage_exhausted (s : BufState) (f p : Nat)
    (hmiss : hlookup s.hash f p = none) (hnone : (allocBuf s).1.2 = none) :
    readPage s f p = ((allocBuf s).1.1, .error .bufferExceeded) := by
  obtain ⟨y, hy⟩ : ∃ y, (allocBuf s).1 = (y, none) := ⟨(allocBuf s).1.1, by rw [← hnone]⟩
  have hy1 : (allocBuf s).1.1 = y := by rw [hy]
  simp [readPage, hmiss, hy, hy1]

/-- BufMgr::readPage on a miss whose File read fails: the eviction persists,
no mapping is inserted, and the File failure propagates. -/
theorem readPage_invalidPage (s : BufState) (f p id : Nat)
    (hmiss : hlookup s.hash f p = none) (hsome : (allocBuf s).1.2 = some id)
    (hread : (dget ((allocBuf s).1.1).disk f).readPage p = none) :
    readPage s f p = ((allocBuf s).1.1, .error (.invalidPage f p)) := by
  obtain ⟨y, hy⟩ : ∃ y, (allocBuf s).1 = (y, some id) := ⟨(allocBuf s).1.1, by rw [← hsome]⟩
  have hy1 : (allocBuf s).1.1 = y := by rw [hy]
  rw [hy1] at hread
  simp [readPage, hmiss, hy, hy1, hread]

/-- BufMgr::readPage on a miss that loads the page: victim frame filled,
mapping inserted, descriptor Set. -/
theorem readPage_load (s : BufState) (f p id : Nat) (pg : Page)
    (hmiss : hlookup s.hash f p = none) (hsome : (allocBuf s).1.2 = some id)
    (hread : (dget ((allocBuf s).1.1).disk f).readPage p = some pg) :
    readPage s f p =
      ({ (allocBuf s).1.1 with
         pool := ((allocBuf s).1.1).pool.set id pg,
         hash := ((f, p), id) :: ((allocBuf s).1.1).hash,
         frames := ((allocBuf s).1.1).frames.set id (BufDesc.Set f p) }, .ok id) := by
  obtain ⟨y, hy⟩ : ∃ y, (allocBuf s).1 = (y, some id) := ⟨(allocBuf s).1.1, by rw [← hsome]⟩
  have hy1 : (allocBuf s).1.1 = y := by rw [hy]
  rw [hy1] at hread
  simp [readPage, hmiss, hy, hy1, hread]

/-- BufMgr::unPinPage on a page that is not cached: silent no-op. -/
theorem unPinPage_missing (s : BufState) (f p : Nat) (d : Bool)
    (h : hlookup s.hash f p = none) : unPinPage s f p d = (s, none) := by
  simp [unPinPage, h]

/-- BufMgr::unPinPage on a cached page with pin count zero:
PageNotPinnedException, no state change. -/
theorem unPinPage_notPinned (s : BufState) (f p id : Nat) (d : Bool)
    (h : hlookup s.hash f p = some id) (hp : (frameAt s id).pinCnt = 0) :
    unPinPage s f p d = (s, some (.pageNotPinned f p)) := by
  simp [unPinPage, h, hp]

/-- BufMgr::unPinPage on a pinned cached page: pin count decremented, dirty
flag set when markDirty holds and never cleared. -/
theorem unPinPage_dec (s : BufState) (f p id : Nat) (d : Bool)
    (h : hlookup s.hash f p = some id) (hp : (frameAt s id).pinCnt ≠ 0) :
    unPinPage s f p d =
      ({ s with frames := s.frames.set id ({ frameAt s id with pinCnt := (frameAt s id).pinCnt - 1, dirty := d || (frameAt s id).dirty }) }, none) := by
  simp [unPinPage, h, hp]

/-- BufMgr::allocPage when every frame is pinned: the on-disk page stays
allocated, the failed sweep's state is returned with
BufferExceededException. -/
theorem allocPage_exhausted (s : BufState) (f : Nat)
    (hnone : (allocBuf { s with disk := dset s.disk f ((dget s.disk f).allocatePage).2 }).1.2 = none) :
    allocPage s f =
      ((allocBuf { s with disk := dset s.disk f ((dget s.disk f).allocatePage).2 }).1.1,
       .error .bufferExceeded) := by
  obtain ⟨y, hy⟩ : ∃ y, (allocBuf { s with disk := dset s.disk f ((dget s.disk f).allocatePage).2 }).1 = (y, none) :=
    ⟨(allocBuf { s with disk := dset s.disk f ((dget s.disk f).allocatePage).2 }).1.1, by rw [← hnone]⟩
  have hy1 : (allocBuf { s with disk := dset s.disk f ((dget s.disk f).allocatePage).2 }).1.1 = y := by rw [hy]
  simp [allocPage, hy, hy1]

/-- The fresh page returned by File::allocatePage carries the counter value. -/
theorem allocatePage_fst (df : DiskFile) :
    df.allocatePage.1 = { pageNo := df.nextPage, data := 0 } := rfl

/-- The fresh-page counter advances by one on allocation. -/
theorem allocatePage_nextPage (df : DiskFile) :
    df.allocatePage.2.nextPage = df.nextPage + 1 := rfl

/-- BufMgr::allocPage with a free frame: fresh page allocated on disk and
cached with pin count one. -/
theorem allocPage_ok (s : BufState) (f : Nat) (fid : Nat)
    (hsome : (allocBuf { s with disk := dset s.disk f ((dget s.disk f).allocatePage).2 }).1.2 = some fid) :
    allocPage s f =
      ({ (allocBuf { s with disk := dset s.disk f ((dget s.disk f).allocatePage).2 }).1.1 with
         hash := ((f, (dget s.disk f).nextPage), fid) :: ((allocBuf { s with disk := dset s.disk f ((dget s.disk f).allocatePage).2 }).1.1).hash,
         frames := ((allocBuf { s with disk := dset s.disk f ((dget s.disk f).allocatePage).2 }).1.1).frames.set fid (BufDesc.Set f (dget s.disk f).nextPage),
         pool := ((allocBuf { s with disk := dset s.disk f ((dget s.disk f).allocatePage).2 }).1.1).pool.set fid ({ pageNo := (dget s.disk f).nextPage, data := 0 }) },
       .ok ((dget s.disk f).nextPage, fid)) := by
  obtain ⟨y, hy⟩ : ∃ y, (allocBuf { s with disk := dset s.disk f ((dget s.disk f).allocatePage).2 }).1 = (y, some fid) :=
    ⟨(allocBuf { s with disk := dset s.disk f ((dget s.disk f).allocatePage).2 }).1.1, by rw [← hsome]⟩
  have hy1 : (allocBuf { s with disk := dset s.disk f ((dget s.disk f).allocatePage).2 }).1.1 = y := by rw [hy]
  simp [allocPage, hy, hy1, allocatePage_fst]

/-- BufMgr::disposePage when the page is not cached: the on-disk page is
deleted, the pool is untouched, no error. -/
theorem disposePage_missing (s : BufState) (f p : Nat)
    (h : hlookup s.hash f p = none) :
    disposePage s f p = ({ s with disk := dset s.disk f ((dget s.disk f).deletePage p) }, none) := by
  simp [disposePage, h]

/-- BufMgr::disposePage when a frame caches the page: mapping removed and
descriptor cleared with no write-back, on-disk page deleted, no error. -/
theorem disposePage_cached (s : BufState) (f p fid : Nat)
    (h : hlookup s.hash f p = some fid) :
    disposePage s f p =
      ({ s with disk := dset s.disk f ((dget s.disk f).deletePage p),
                hash := hremove s.hash f p,
                frames := s.frames.set fid BufDesc.Clear }, none) := by
  simp [disposePage, h]

/-- BufMgr::flushFile skips frames owned by other files. -/
theorem flushLoop_skip (f : Nat) (s : BufState) (id : Nat) (rest : List Nat)
    (h : (frameAt s id).fileId ≠ some f) :
    flushLoop f s (id :: rest) = flushLoop f s rest := by
  simp [flushLoop, h]

/-- BufMgr::flushFile raises BadBufferException on an invalid frame still
associated with the file. -/
theorem flushLoop_bad (f : Nat) (s : BufState) (id : Nat) (rest : List Nat)
    (h : (frameAt s id).fileId = some f) (hv : (frameAt s id).valid = false) :
    flushLoop f s (id :: rest) = (s, some (.badBuffer id)) := by
  simp [flushLoop, h, hv]

/-- BufMgr::flushFile raises PagePinnedException on a pinned frame of the
file, aborting with the mutations already performed left in place. -/
theorem flushLoop_pinned (f : Nat) (s : BufState) (id : Nat) (rest : List Nat)
    (h : (frameAt s id).fileId = some f) (hv : (frameAt s id).valid = true)
    (hp : (frameAt s id).pinCnt ≠ 0) :
    flushLoop f s (id :: rest) = (s, some (.pagePinned f ((frameAt s id).pageNo.getD 0))) := by
  simp [flushLoop, h, hv, hp]

/-- BufMgr::flushFile flushes an unpinned frame of the file (write-back if
dirty, mapping removed, descriptor cleared) and continues. -/
theorem flushLoop_flush (f : Nat) (s : BufState) (id : Nat) (rest : List Nat)
    (h : (frameAt s id).fileId = some f) (hv : (frameAt s id).valid = true)
    (hp : (frameAt s id).pinCnt = 0) :
    flushLoop f s (id :: rest) = flushLoop f (evictFrame s id) rest := by
  simp [flushLoop, h, hv, hp]

end BufMgr

namespace BufMgr

/-- Reading a descriptor out of an explicit state literal. -/
theorem frameAt_mk (fr : List BufDesc) (pl : List Page) (hs : List ((Nat × Nat) × Nat))
    (ch : Nat) (dk : List (Nat × DiskFile)) (lg : List (Nat × Page)) (i : Nat) :
    frameAt { frames := fr, pool := pl, hash := hs, clockHand := ch, disk := dk, log := lg } i
      = fr.getD i BufDesc.Clear := rfl

/-- Descriptor reads after updating a single frame. -/
theorem frameAt_framesSet (s : BufState) (id : Nat) (d : BufDesc) (i : Nat) :
    frameAt { s with frames := s.frames.set id d } i
      = if id = i ∧ id < s.numBufs then d else frameAt s i := by
  have hnb : s.numBufs = s.frames.length := rfl
  show (s.frames.set id d).getD i BufDesc.Clear = _
  rw [getD_set_cases, hnb]
  rfl

/-- Replacing one descriptor while keeping its validity and key preserves the
invariant. -/
theorem inv_updateSameKeys (s : BufState) (id : Nat) (d : BufDesc) (hInv : Inv s)
    (hv : d.valid = (frameAt s id).valid)
    (hf : d.fileId = (frameAt s id).fileId)
    (hp : d.pageNo = (frameAt s id).pageNo)
    (hcl : (frameAt s id).valid = false → d = BufDesc.Clear) :
    Inv { s with frames := s.frames.set id d } := by
  obtain ⟨hn, hc, h1, h2, h3, h4, h5⟩ := hInv
  have hlen : ({ s with frames := s.frames.set id d } : BufState).numBufs = s.numBufs :=
    List.length_set s.frames id d
  refine ⟨by rw [hlen]; exact hn, ?_, ?_, ?_, ?_, ?_, h5⟩
  · unfold clockOk
    rw [hlen]
    exact hc
  · intro e he
    have hre := h1 e he
    rw [hlen, frameAt_framesSet]
    by_cases hcz : id = e.2 ∧ id < s.numBufs
    · rw [if_pos hcz]
      refine ⟨hre.1, ?_, ?_, ?_⟩
      · rw [hv, hcz.1]
        exact hre.2.1
      · rw [hf, hcz.1]
        exact hre.2.2.1
      · rw [hp, hcz.1]
        exact hre.2.2.2
    · rw [if_neg hcz]
      exact hre
  · intro i hi hval
    rw [hlen] at hi
    rw [frameAt_framesSet] at hval ⊢
    by_cases hcz : id = i ∧ id < s.numBufs
    · rw [if_pos hcz] at hval ⊢
      rw [hv, hcz.1] at hval
      rw [hf, hp, hcz.1]
      exact h2 i hi hval
    · rw [if_neg hcz] at hval ⊢
      exact h2 i hi hval
  · intro i hi hval
    rw [hlen] at hi
    rw [frameAt_framesSet] at hval ⊢
    by_cases hcz : id = i ∧ id < s.numBufs
    · rw [if_pos hcz] at hval ⊢
      rw [hv, hcz.1] at hval
      have hval2 : (frameAt s id).valid = false := by
        rw [hcz.1]
        exact hval
      exact hcl hval2
    · rw [if_neg hcz] at hval ⊢
      exact h3 i hi hval
  · intro i hi hval
    rw [hlen] at hi
    rw [frameAt_framesSet] at hval ⊢
    by_cases hcz : id = i ∧ id < s.numBufs
    · rw [if_pos hcz] at hval ⊢
      rw [hv, hcz.1] at hval
      rw [hf, hp, hcz.1]
      exact h4 i hi hval
    · rw [if_neg hcz] at hval ⊢
      exact h4 i hi hval

/-- Removing a cached page's mapping and clearing its frame preserves the
invariant (BufMgr::disposePage's cached branch). -/
theorem inv_removeClear (s : BufState) (f p fid : Nat) (hInv : Inv s)
    (hfind : hlookup s.hash f p = some fid) :
    Inv { s with hash := hremove s.hash f p, frames := s.frames.set fid BufDesc.Clear } := by
  obtain ⟨hn, hc, h1, h2, h3, h4, h5⟩ := hInv
  have hre0 := h1 _ (hlookup_mem hfind)
  have hfid : fid < s.numBufs := hre0.1
  have hval0 : (frameAt s fid).valid = true := hre0.2.1
  have hkf : (frameAt s fid).fileId = some f := hre0.2.2.1
  have hkp : (frameAt s fid).pageNo = some p := hre0.2.2.2
  have hlen : ({ s with hash := hremove s.hash f p, frames := s.frames.set fid BufDesc.Clear } : BufState).numBufs = s.numBufs :=
    List.length_set s.frames fid BufDesc.Clear
  have hfr : ∀ i, frameAt { s with hash := hremove s.hash f p, frames := s.frames.set fid BufDesc.Clear } i = if fid = i ∧ fid < s.numBufs then BufDesc.Clear else frameAt s i := by
    intro i
    have hnb : s.numBufs = s.frames.length := rfl
    show (s.frames.set fid BufDesc.Clear).getD i BufDesc.Clear = _
    rw [getD_set_cases, hnb]
    rfl
  refine ⟨by rw [hlen]; exact hn, ?_, ?_, ?_, ?_, ?_, h5⟩
  · unfold clockOk
    rw [hlen]
    exact hc
  · intro e he
    obtain ⟨hes, hek⟩ := mem_hremove.mp he
    have hre := h1 e hes
    have hne : ¬ (fid = e.2) := by
      intro hide
      refine hek ?_
      rw [← hide] at hre
      have hf1 : e.1.1 = f := by
        have := hre.2.2.1
        rw [hkf] at this
        exact (Option.some.inj this).symm
      have hp1 : e.1.2 = p := by
        have := hre.2.2.2
        rw [hkp] at this
        exact (Option.some.inj this).symm
      rw [show e.1 = (e.1.1, e.1.2) from rfl, hf1, hp1]
    rw [hlen, hfr e.2, if_neg (fun hh => hne hh.1)]
    exact hre
  · intro i hi hval
    rw [hlen] at hi
    rw [hfr i] at hval ⊢
    by_cases hcz : fid = i ∧ fid < s.numBufs
    · rw [if_pos hcz] at hval
      exact absurd hval (by simp [BufDesc.Clear])
    · rw [if_neg hcz] at hval ⊢
      have hki := h2 i hi hval
      have hne : ((frameAt s i).fileId.getD 0, (frameAt s i).pageNo.getD 0) ≠ ((f : Nat), p) := by
        intro heq
        injection heq with hq1 hq2
        have hki2 := hki
        rw [hq1, hq2, hfind] at hki2
        have hii : fid = i := by
          simpa using hki2
        exact hcz ⟨hii, hfid⟩
      rw [hlookup_hremove_ne _ _ _ _ _ hne]
      exact hki
  · intro i hi hval
    rw [hlen] at hi
    rw [hfr i] at hval ⊢
    by_cases hcz : fid = i ∧ fid < s.numBufs
    · rw [if_pos hcz] at hval ⊢
    · rw [if_neg hcz] at hval ⊢
      exact h3 i hi hval
  · intro i hi hval
    rw [hlen] at hi
    rw [hfr i] at hval ⊢
    by_cases hcz : fid = i ∧ fid < s.numBufs
    · rw [if_pos hcz] at hval
      exact absurd hval (by simp [BufDesc.Clear])
    · rw [if_neg hcz] at hval ⊢
      exact h4 i hi hval

/-- Deleting an on-disk page preserves the invariant. -/
theorem inv_diskDelete (s : BufState) (f p : Nat) (hInv : Inv s) :
    Inv { s with disk := dset s.disk f ((dget s.disk f).deletePage p) } := by
  obtain ⟨hn, hc, h1, h2, h3, h4, h5⟩ := hInv
  refine ⟨hn, hc, h1, h2, h3, ?_, ?_⟩
  · intro i hi hval
    have hlt := h4 i hi hval
    show (frameAt s i).pageNo.getD 0 < (dget (dset s.disk f ((dget s.disk f).deletePage p)) ((frameAt s i).fileId.getD 0)).nextPage
    by_cases hg : (frameAt s i).fileId.getD 0 = f
    · rw [hg, dget_dset_self]
      rw [hg] at hlt
      exact hlt
    · rw [dget_dset_ne _ _ _ _ hg]
      exact hlt
  · exact diskWF_dset _ _ _ h5 (fileWF_deletePage _ _ (fileWF_dget _ _ h5))

/-- Allocating a fresh on-disk page preserves the invariant (the fresh-page
counter only grows). -/
theorem inv_diskAlloc (s : BufState) (f : Nat) (hInv : Inv s) :
    Inv { s with disk := dset s.disk f ((dget s.disk f).allocatePage).2 } := by
  obtain ⟨hn, hc, h1, h2, h3, h4, h5⟩ := hInv
  refine ⟨hn, hc, h1, h2, h3, ?_, ?_⟩
  · intro i hi hval
    have hlt := h4 i hi hval
    show (frameAt s i).pageNo.getD 0 < (dget (dset s.disk f ((dget s.disk f).allocatePage).2) ((frameAt s i).fileId.getD 0)).nextPage
    by_cases hg : (frameAt s i).fileId.getD 0 = f
    · rw [hg, dget_dset_self, allocatePage_nextPage]
      rw [hg] at hlt
      omega
    · rw [dget_dset_ne _ _ _ _ hg]
      exact hlt
  · exact diskWF_dset _ _ _ h5 (fileWF_allocatePage _ (fileWF_dget _ _ h5))

/-- Filling a cleared victim frame with a freshly loaded page and inserting
its mapping preserves the invariant. -/
theorem inv_insertFrame (s1 : BufState) (f p id : Nat) (pg : Page) (hInv : Inv s1)
    (hid : id < s1.numBufs) (hclear : frameAt s1 id = BufDesc.Clear)
    (hmiss : hlookup s1.hash f p = none)
    (hdisk : p < (dget s1.disk f).nextPage) :
    Inv { s1 with pool := s1.pool.set id pg, hash := ((f, p), id) :: s1.hash,
                  frames := s1.frames.set id (BufDesc.Set f p) } := by
  obtain ⟨hn, hc, h1, h2, h3, h4, h5⟩ := hInv
  have hlen : ({ s1 with pool := s1.pool.set id pg, hash := ((f, p), id) :: s1.hash, frames := s1.frames.set id (BufDesc.Set f p) } : BufState).numBufs = s1.numBufs :=
    List.length_set s1.frames id _
  have hfr : ∀ i, frameAt { s1 with pool := s1.pool.set id pg, hash := ((f, p), id) :: s1.hash, frames := s1.frames.set id (BufDesc.Set f p) } i = if id = i ∧ id < s1.numBufs then BufDesc.Set f p else frameAt s1 i := by
    intro i
    have hnb : s1.numBufs = s1.frames.length := rfl
    show (s1.frames.set id (BufDesc.Set f p)).getD i BufDesc.Clear = _
    rw [getD_set_cases, hnb]
    rfl
  refine ⟨by rw [hlen]; exact hn, ?_, ?_, ?_, ?_, ?_, h5⟩
  · unfold clockOk
    rw [hlen]
    exact hc
  · intro e he
    rcases List.mem_cons.mp he with rfl | hes
    · rw [hlen, hfr id, if_pos ⟨rfl, hid⟩]
      exact ⟨hid, rfl, rfl, rfl⟩
    · have hre := h1 e hes
      have hne : ¬ (id = e.2) := by
        intro hide
        rw [← hide] at hre
        rw [hclear] at hre
        exact absurd hre.2.1 (by simp [BufDesc.Clear])
      rw [hlen, hfr e.2, if_neg (fun hh => hne hh.1)]
      exact hre
  · intro i hi hval
    rw [hlen] at hi
    rw [hfr i] at hval ⊢
    by_cases hcz : id = i ∧ id < s1.numBufs
    · rw [if_pos hcz]
      show hlookup (((f, p), id) :: s1.hash) ((some f).getD 0) ((some p).getD 0) = some i
      rw [show ((some f : Option Nat)).getD 0 = f from rfl, show ((some p : Option Nat)).getD 0 = p from rfl]
      rw [hlookup_cons_self, hcz.1]
    · rw [if_neg hcz] at hval ⊢
      have hki := h2 i hi hval
      have hne : ((f : Nat), p) ≠ ((frameAt s1 i).fileId.getD 0, (frameAt s1 i).pageNo.getD 0) := by
        intro heq
        injection heq with hq1 hq2
        rw [← hq1, ← hq2] at hki
        rw [hmiss] at hki
        exact absurd hki (by simp)
      show hlookup (((f, p), id) :: s1.hash) _ _ = some i
      rw [hlookup_cons_ne _ _ _ _ _ _ hne]
      exact hki
  · intro i hi hval
    rw [hlen] at hi
    rw [hfr i] at hval ⊢
    by_cases hcz : id = i ∧ id < s1.numBufs
    · rw [if_pos hcz] at hval
      exact absurd hval (by simp [BufDesc.Set])
    · rw [if_neg hcz] at hval ⊢
      exact h3 i hi hval
  · intro i hi hval
    rw [hlen] at hi
    rw [hfr i] at hval ⊢
    by_cases hcz : id = i ∧ id < s1.numBufs
    · rw [if_pos hcz]
      show ((some p : Option Nat)).getD 0 < (dget s1.disk (((some f : Option Nat)).getD 0)).nextPage
      exact hdisk
    · rw [if_neg hcz] at hval ⊢
      exact h4 i hi hval

end BufMgr

namespace BufMgr

/-- BufMgr::readPage preserves the pool invariant. -/
theorem inv_readPage (s : BufState) (f p : Nat) (hInv : Inv s) : Inv (readPage s f p).1 := by
  cases hlook : hlookup s.hash f p with
  | some id =>
    rw [readPage_hit s f p id hlook]
    have hre := hInv.2.2.1 _ (hlookup_mem hlook)
    exact inv_updateSameKeys s id _ hInv rfl rfl rfl (fun hinv => absurd hre.2.1 (by simp [hinv]))
  | none =>
    cases hv : (allocBuf s).1.2 with
    | none =>
      rw [readPage_exhausted s f p hlook hv]
      exact inv_allocBuf s hInv
    | some id =>
      cases hread : (dget ((allocBuf s).1.1).disk f).readPage p with
      | none =>
        rw [readPage_invalidPage s f p id hlook hv hread]
        exact inv_allocBuf s hInv
      | some pg =>
        rw [readPage_load s f p id pg hlook hv hread]
        have hInv1 := inv_allocBuf s hInv
        have hlen1 : ((allocBuf s).1.1).numBufs = s.numBufs :=
          allocBufLoop_length (2 * s.numBufs + 1) s
        have hid : id < ((allocBuf s).1.1).numBufs := by
          rw [hlen1]
          exact (allocBufLoop_hand (2 * s.numBufs + 1) s hInv.1 hInv.2.1).2 id hv
        have hclear : frameAt ((allocBuf s).1.1) id = BufDesc.Clear :=
          allocBufLoop_victim_clear (2 * s.numBufs + 1) s id hv
        have hmiss1 : hlookup ((allocBuf s).1.1).hash f p = none := by
          rw [hlookup_eq_none] at hlook ⊢
          intro e he
          exact hlook e (allocBufLoop_hash_sub (2 * s.numBufs + 1) s e he)
        have hdisk : p < (dget ((allocBuf s).1.1).disk f).nextPage := by
          unfold DiskFile.readPage at hread
          cases hplk : plookup (dget ((allocBuf s).1.1).disk f).pages p with
          | none =>
            rw [hplk] at hread
            simp at hread
          | some dd =>
            have hmem := plookup_mem hplk
            have hwf := fileWF_dget ((allocBuf s).1.1).disk f hInv1.2.2.2.2.2.2
            exact hwf (p, dd) hmem
        exact inv_insertFrame ((allocBuf s).1.1) f p id pg hInv1 hid hclear hmiss1 hdisk

/-- BufMgr::unPinPage preserves the pool invariant. -/
theorem inv_unPinPage (s : BufState) (f p : Nat) (d : Bool) (hInv : Inv s) :
    Inv (unPinPage s f p d).1 := by
  cases hl : hlookup s.hash f p with
  | none =>
    rw [unPinPage_missing s f p d hl]
    exact hInv
  | some id =>
    by_cases hp : (frameAt s id).pinCnt = 0
    · rw [unPinPage_notPinned s f p id d hl hp]
      exact hInv
    · rw [unPinPage_dec s f p id d hl hp]
      have hre := hInv.2.2.1 _ (hlookup_mem hl)
      exact inv_updateSameKeys s id _ hInv rfl rfl rfl (fun hinv => absurd hre.2.1 (by simp [hinv]))

/-- BufMgr::allocPage preserves the pool invariant. -/
theorem inv_allocPage (s : BufState) (f : Nat) (hInv : Inv s) : Inv (allocPage s f).1 := by
  have hInv0 := inv_diskAlloc s f hInv
  cases hv : (allocBuf { s with disk := dset s.disk f ((dget s.disk f).allocatePage).2 }).1.2 with
  | none =>
    rw [allocPage_exhausted s f hv]
    exact inv_allocBuf _ hInv0
  | some fid =>
    rw [allocPage_ok s f fid hv]
    have hInv1 := inv_allocBuf _ hInv0
    have hlen1 : ((allocBuf { s with disk := dset s.disk f ((dget s.disk f).allocatePage).2 }).1.1).numBufs = s.numBufs :=
      allocBufLoop_length _ _
    have hid : fid < ((allocBuf { s with disk := dset s.disk f ((dget s.disk f).allocatePage).2 }).1.1).numBufs := by
      rw [hlen1]
      exact (allocBufLoop_hand _ _ hInv0.1 hInv0.2.1).2 fid hv
    have hclear := allocBufLoop_victim_clear _ _ fid hv
    have hmiss1 : hlookup ((allocBuf { s with disk := dset s.disk f ((dget s.disk f).allocatePage).2 }).1.1).hash f ((dget s.disk f).nextPage) = none := by
      rw [hlookup_eq_none]
      intro e he
      obtain ⟨⟨ef, ep⟩, ei⟩ := e
      have hes : ((ef, ep), ei) ∈ s.hash :=
        allocBufLoop_hash_sub (2 * ({ s with disk := dset s.disk f ((dget s.disk f).allocatePage).2 } : BufState).numBufs + 1) { s with disk := dset s.disk f ((dget s.disk f).allocatePage).2 } ((ef, ep), ei) he
      have hre := hInv.2.2.1 _ hes
      intro heq
      injection heq with hq1 hq2
      subst hq1
      subst hq2
      have hlt := hInv.2.2.2.2.2.1 ei hre.1 hre.2.1
      rw [hre.2.2.1, hre.2.2.2] at hlt
      simp at hlt
    have hdiskp : (dget s.disk f).nextPage < (dget ((allocBuf { s with disk := dset s.disk f ((dget s.disk f).allocatePage).2 }).1.1).disk f).nextPage := by
      have hnp : (dget ((allocBuf { s with disk := dset s.disk f ((dget s.disk f).allocatePage).2 }).1.1).disk f).nextPage = (dget ({ s with disk := dset s.disk f ((dget s.disk f).allocatePage).2 } : BufState).disk f).nextPage :=
        allocBufLoop_nextPage (2 * ({ s with disk := dset s.disk f ((dget s.disk f).allocatePage).2 } : BufState).numBufs + 1) { s with disk := dset s.disk f ((dget s.disk f).allocatePage).2 } f
      rw [hnp]
      show (dget s.disk f).nextPage < (dget (dset s.disk f ((dget s.disk f).allocatePage).2) f).nextPage
      rw [dget_dset_self, allocatePage_nextPage]
      omega
    exact inv_insertFrame _ f ((dget s.disk f).nextPage) fid _ hInv1 hid hclear hmiss1 hdiskp

/-- BufMgr::disposePage preserves the pool invariant. -/
theorem inv_disposePage (s : BufState) (f p : Nat) (hInv : Inv s) :
    Inv (disposePage s f p).1 := by
  have hInv0 := inv_diskDelete s f p hInv
  cases hl : hlookup s.hash f p with
  | none =>
    rw [disposePage_missing s f p hl]
    exact hInv0
  | some fid =>
    rw [disposePage_cached s f p fid hl]
    exact inv_removeClear { s with disk := dset s.disk f ((dget s.disk f).deletePage p) } f p fid hInv0 hl

/-- The flush scan preserves the pool invariant. -/
theorem inv_flushLoop (f : Nat) : ∀ (ids : List Nat) (s : BufState), Inv s →
    Inv (flushLoop f s ids).1 := by
  intro ids
  induction ids with
  | nil => intro s h; exact h
  | cons id rest ih =>
    intro s hInv
    by_cases hfe : (frameAt s id).fileId = some f
    · by_cases hval : (frameAt s id).valid = false
      · rw [flushLoop_bad f s id rest hfe hval]
        exact hInv
      · have hval1 := bool_ne_false hval
        by_cases hp : (frameAt s id).pinCnt = 0
        · rw [flushLoop_flush f s id rest hfe hval1 hp]
          exact ih _ (inv_evictFrame s id hInv hval1)
        · rw [flushLoop_pinned f s id rest hfe hval1 hp]
          exact hInv
    · rw [flushLoop_skip f s id rest hfe]
      exact ih s hInv

/-- BufMgr::flushFile preserves the pool invariant. -/
theorem inv_flushFile (s : BufState) (f : Nat) (hInv : Inv s) : Inv (flushFile s f).1 :=
  inv_flushLoop f (List.range s.numBufs) s hInv

/-- Every public operation preserves the pool invariant. -/
theorem inv_step (s : BufState) (op : Op) (hInv : Inv s) : Inv (step s op) := by
  cases op with
  | read f p => exact inv_readPage s f p hInv
  | alloc f => exact inv_allocPage s f hInv
  | unpin f p d => exact inv_unPinPage s f p d hInv
  | dispose f p => exact inv_disposePage s f p hInv
  | flush f => exact inv_flushFile s f hInv

/-- Any sequence of public operations preserves the pool invariant. -/
theorem inv_run : ∀ (ops : List Op) (s : BufState), Inv s → Inv (run s ops) := by
  intro ops
  induction ops with
  | nil => intro s h; exact h
  | cons op rest ih => intro s h; exact ih (step s op) (inv_step s op h)

/-- A freshly constructed pool with at least one frame over a well-formed
disk satisfies the invariant. -/
theorem inv_initState (n : Nat) (d : List (Nat × DiskFile)) (hn : 1 ≤ n)
    (hd : diskWF d) : Inv (initState n d) := by
  have hfr : ∀ i, frameAt (initState n d) i = BufDesc.Clear := fun i =>
    getD_replicate n i BufDesc.Clear
  have hnb : (initState n d).numBufs = n := List.length_replicate n _
  refine ⟨by rw [hnb]; exact hn, ?_, ?_, ?_, ?_, ?_, hd⟩
  · unfold clockOk
    rw [hnb]
    show n - 1 < n
    omega
  · intro e he
    simp [initState] at he
  · intro i hi hval
    rw [hfr i] at hval
    exact absurd hval (by simp [BufDesc.Clear])
  · intro i hi hval
    exact hfr i
  · intro i hi hval
    rw [hfr i] at hval
    exact absurd hval (by simp [BufDesc.Clear])

/-- The invariant forces key uniqueness across valid frames. -/
theorem keyUnique_of_Inv (s : BufState) (hInv : Inv s) : keyUnique s := by
  intro i j hi hj hvi hvj hfe hpe
  have hki := hInv.2.2.2.1 i hi hvi
  have hkj := hInv.2.2.2.1 j hj hvj
  rw [hfe, hpe] at hki
  rw [hkj] at hki
  exact (Option.some.inj hki).symm

end BufMgr

namespace BufMgr

/-- Eviction only appends to the write-back log. -/
theorem evictFrame_log_mono (s : BufState) (id : Nat) {e : Nat × Page}
    (h : e ∈ s.log) : e ∈ (evictFrame s id).log := by
  cases hd : (frameAt s id).dirty
  · rw [evictFrame_clean s id hd]
    exact h
  · rw [evictFrame_dirty s id hd]
    exact List.mem_cons_of_mem _ h

/-- The flush scan does not touch the frame contents. -/
theorem flushLoop_pool (f : Nat) : ∀ (ids : List Nat) (s : BufState),
    (flushLoop f s ids).1.pool = s.pool := by
  intro ids
  induction ids with
  | nil => intro s; rfl
  | cons id rest ih =>
    intro s
    by_cases hfe : (frameAt s id).fileId = some f
    · by_cases hval : (frameAt s id).valid = false
      · rw [flushLoop_bad f s id rest hfe hval]
      · have hval1 := bool_ne_false hval
        by_cases hp : (frameAt s id).pinCnt = 0
        · rw [flushLoop_flush f s id rest hfe hval1 hp, ih, evictFrame_pool]
        · rw [flushLoop_pinned f s id rest hfe hval1 hp]
    · rw [flushLoop_skip f s id rest hfe]
      exact ih s

/-- The flush scan only appends to the write-back log. -/
theorem flushLoop_log_mono (f : Nat) : ∀ (ids : List Nat) (s : BufState) (e : Nat × Page),
    e ∈ s.log → e ∈ (flushLoop f s ids).1.log := by
  intro ids
  induction ids with
  | nil => intro s e h; exact h
  | cons id rest ih =>
    intro s e h
    by_cases hfe : (frameAt s id).fileId = some f
    · by_cases hval : (frameAt s id).valid = false
      · rw [flushLoop_bad f s id rest hfe hval]
        exact h
      · have hval1 := bool_ne_false hval
        by_cases hp : (frameAt s id).pinCnt = 0
        · rw [flushLoop_flush f s id rest hfe hval1 hp]
          exact ih _ e (evictFrame_log_mono s id h)
        · rw [flushLoop_pinned f s id rest hfe hval1 hp]
          exact h
    · rw [flushLoop_skip f s id rest hfe]
      exact ih s e h

/-- Once a frame is cleared, the rest of the flush scan keeps it cleared. -/
theorem flushLoop_clear_stays (f : Nat) : ∀ (ids : List Nat) (s : BufState) (id : Nat),
    frameAt s id = BufDesc.Clear → frameAt (flushLoop f s ids).1 id = BufDesc.Clear := by
  intro ids
  induction ids with
  | nil => intro s id h; exact h
  | cons id' rest ih =>
    intro s id h
    by_cases hfe : (frameAt s id').fileId = some f
    · by_cases hval : (frameAt s id').valid = false
      · rw [flushLoop_bad f s id' rest hfe hval]
        exact h
      · have hval1 := bool_ne_false hval
        by_cases hp : (frameAt s id').pinCnt = 0
        · rw [flushLoop_flush f s id' rest hfe hval1 hp]
          refine ih _ id ?_
          rw [evictFrame_frameAt]
          by_cases hcz : id' = id ∧ id' < s.numBufs
          · rw [if_pos hcz]
          · rw [if_neg hcz]
            exact h
        · rw [flushLoop_pinned f s id' rest hfe hval1 hp]
          exact h
    · rw [flushLoop_skip f s id' rest hfe]
      exact ih s id h

/-- A dirty valid frame of the flushed file that the scan reaches without
aborting is written back and its descriptor cleared. -/
theorem flushLoop_processes (f : Nat) : ∀ (ids : List Nat) (s : BufState) (id : Nat),
    id ∈ ids → (frameAt s id).fileId = some f → (frameAt s id).valid = true →
    (frameAt s id).dirty = true → (flushLoop f s ids).2 = none →
    (f, poolAt s id) ∈ (flushLoop f s ids).1.log ∧
      frameAt (flushLoop f s ids).1 id = BufDesc.Clear := by
  intro ids
  induction ids with
  | nil => intro s id hmem; simp at hmem
  | cons id' rest ih =>
    intro s id hmem hfe hval hd hnone
    by_cases hfe' : (frameAt s id').fileId = some f
    · by_cases hval' : (frameAt s id').valid = false
      · rw [flushLoop_bad f s id' rest hfe' hval'] at hnone
        simp at hnone
      · have hval1 := bool_ne_false hval'
        by_cases hp : (frameAt s id').pinCnt = 0
        · rw [flushLoop_flush f s id' rest hfe' hval1 hp] at hnone ⊢
          by_cases hii : id' = id
          · subst hii
            have hlt : id' < s.numBufs := frameAt_lt_of_valid hval1
            have hlog : (f, poolAt s id') ∈ (evictFrame s id').log := by
              rw [evictFrame_dirty s id' hd]
              rw [show (frameAt s id').fileId.getD 0 = f from by rw [hfe']; rfl]
              exact List.mem_cons_self _ _
            have hclr : frameAt (evictFrame s id') id' = BufDesc.Clear := by
              rw [evictFrame_frameAt]
              exact if_pos ⟨rfl, hlt⟩
            exact ⟨flushLoop_log_mono f rest _ _ hlog, flushLoop_clear_stays f rest _ _ hclr⟩
          · have hmem' : id ∈ rest := by
              rcases List.mem_cons.mp hmem with h1 | h1
              · exact absurd h1.symm hii
              · exact h1
            have hfr : frameAt (evictFrame s id') id = frameAt s id := by
              rw [evictFrame_frameAt]
              exact if_neg (fun hh => hii hh.1)
            have hpool : poolAt (evictFrame s id') id = poolAt s id := by
              unfold poolAt
              rw [evictFrame_pool]
            have hrec := ih (evictFrame s id') id hmem' (by rw [hfr]; exact hfe)
              (by rw [hfr]; exact hval) (by rw [hfr]; exact hd) hnone
            rw [hpool] at hrec
            exact hrec
        · rw [flushLoop_pinned f s id' rest hfe' hval1 hp] at hnone
          simp at hnone
    · rw [flushLoop_skip f s id' rest hfe'] at hnone ⊢
      have hmem' : id ∈ rest := by
        rcases List.mem_cons.mp hmem with h1 | h1
        · subst h1
          exact absurd hfe hfe'
        · exact h1
      exact ih s id hmem' hfe hval hd hnone

/-- Destructor scan step on an invalid frame: skipped. -/
theorem shutdownLoop_skip (s : BufState) (id : Nat) (rest : List Nat)
    (h : (frameAt s id).valid = false) :
    shutdownLoop s (id :: rest) = shutdownLoop s rest := by
  simp [shutdownLoop, h]

/-- Destructor scan aborts on a pinned frame (PagePinnedException). -/
theorem shutdownLoop_pinned (s : BufState) (id : Nat) (rest : List Nat)
    (hv : (frameAt s id).valid = true) (hp : (frameAt s id).pinCnt ≠ 0) :
    shutdownLoop s (id :: rest)
      = (s, some (.pagePinned ((frameAt s id).fileId.getD 0) ((frameAt s id).pageNo.getD 0))) := by
  simp [shutdownLoop, hv, hp]

/-- Destructor scan writes a dirty unpinned frame back and continues. -/
theorem shutdownLoop_dirty (s : BufState) (id : Nat) (rest : List Nat)
    (hv : (frameAt s id).valid = true) (hp : (frameAt s id).pinCnt = 0)
    (hd : (frameAt s id).dirty = true) :
    shutdownLoop s (id :: rest) = shutdownLoop (writeBack s id) rest := by
  simp [shutdownLoop, hv, hp, hd]

/-- Destructor scan passes over a clean unpinned frame. -/
theorem shutdownLoop_clean (s : BufState) (id : Nat) (rest : List Nat)
    (hv : (frameAt s id).valid = true) (hp : (frameAt s id).pinCnt = 0)
    (hd : (frameAt s id).dirty = false) :
    shutdownLoop s (id :: rest) = shutdownLoop s rest := by
  simp [shutdownLoop, hv, hp, hd]

/-- The destructor scan only appends to the write-back log. -/
theorem shutdownLoop_log_mono : ∀ (ids : List Nat) (s : BufState) (e : Nat × Page),
    e ∈ s.log → e ∈ (shutdownLoop s ids).1.log := by
  intro ids
  induction ids with
  | nil => intro s e h; exact h
  | cons id rest ih =>
    intro s e h
    by_cases hv : (frameAt s id).valid = false
    · rw [shutdownLoop_skip s id rest hv]
      exact ih s e h
    · have hv1 := bool_ne_false hv
      by_cases hp : (frameAt s id).pinCnt = 0
      · cases hd : (frameAt s id).dirty
        · rw [shutdownLoop_clean s id rest hv1 hp hd]
          exact ih s e h
        · rw [shutdownLoop_dirty s id rest hv1 hp hd]
          exact ih _ e (List.mem_cons_of_mem _ h)
      · rw [shutdownLoop_pinned s id rest hv1 hp]
        exact h

/-- A dirty valid frame that the destructor reaches without aborting is
written back via the File collaborator. -/
theorem shutdownLoop_processes : ∀ (ids : List Nat) (s : BufState) (id : Nat),
    id ∈ ids → (frameAt s id).valid = true → (frameAt s id).dirty = true →
    (shutdownLoop s ids).2 = none →
    ((frameAt s id).fileId.getD 0, poolAt s id) ∈ (shutdownLoop s ids).1.log := by
  intro ids
  induction ids with
  | nil => intro s id hmem; simp at hmem
  | cons id' rest ih =>
    intro s id hmem hval hd hnone
    by_cases hv' : (frameAt s id').valid = false
    · rw [shutdownLoop_skip s id' rest hv'] at hnone ⊢
      have hmem' : id ∈ rest := by
        rcases List.mem_cons.mp hmem with h1 | h1
        · subst h1
          rw [hval] at hv'
          exact absurd hv' (by simp)
        · exact h1
      exact ih s id hmem' hval hd hnone
    · have hv1 := bool_ne_false hv'
      by_cases hp : (frameAt s id').pinCnt = 0
      · cases hd' : (frameAt s id').dirty
        · rw [shutdownLoop_clean s id' rest hv1 hp hd'] at hnone ⊢
          have hmem' : id ∈ rest := by
            rcases List.mem_cons.mp hmem with h1 | h1
            · subst h1
              rw [hd] at hd'
              exact absurd hd' (by simp)
            · exact h1
          exact ih s id hmem' hval hd hnone
        · rw [shutdownLoop_dirty s id' rest hv1 hp hd'] at hnone ⊢
          by_cases hii : id' = id
          · subst hii
            refine shutdownLoop_log_mono rest _ _ ?_
            exact List.mem_cons_self _ _
          · have hmem' : id ∈ rest := by
              rcases List.mem_cons.mp hmem with h1 | h1
              · exact absurd h1.symm hii
              · exact h1
            exact ih (writeBack s id') id hmem' hval hd hnone
      · rw [shutdownLoop_pinned s id' rest hv1 hp] at hnone
        simp at hnone

end BufMgr

namespace BufMgr

/-- With sound empty descriptors, the sweep never changes any pin count. -/
theorem allocBufLoop_pinCnt (fuel : Nat) (s : BufState) (i : Nat) (hd : descOk s) :
    (frameAt ((allocBufLoop s fuel).1.1) i).pinCnt = (frameAt s i).pinCnt := by
  rcases allocBufLoop_frames fuel s i with h | h | h
  · rw [h]
  · rw [h]
  · rw [h.2]
    rcases allocBufLoop_victim_pre fuel s i h.1 with hv | hv
    · by_cases hlt : i < s.numBufs
      · rw [hd i hlt hv]
      · have hcl : frameAt s i = BufDesc.Clear :=
          getD_of_le s.frames i BufDesc.Clear (Nat.le_of_not_lt hlt)
        rw [hcl]
    · rw [hv]
      rfl

/-- BufMgr::readPage never decreases any frame's pin count. -/
theorem readPage_pin_mono (s : BufState) (f p i : Nat) (hd : descOk s) :
    (frameAt s i).pinCnt ≤ (frameAt (readPage s f p).1 i).pinCnt := by
  cases hlook : hlookup s.hash f p with
  | some id =>
    rw [readPage_hit s f p id hlook]
    show (frameAt s i).pinCnt ≤ (frameAt { s with frames := s.frames.set id _ } i).pinCnt
    rw [frameAt_framesSet]
    by_cases hcz : id = i ∧ id < s.numBufs
    · rw [if_pos hcz]
      show (frameAt s i).pinCnt ≤ (frameAt s id).pinCnt + 1
      rw [hcz.1]
      omega
    · rw [if_neg hcz]
  | none =>
    have hpeq : (frameAt ((allocBuf s).1.1) i).pinCnt = (frameAt s i).pinCnt :=
      allocBufLoop_pinCnt (2 * s.numBufs + 1) s i hd
    cases hv : (allocBuf s).1.2 with
    | none =>
      rw [readPage_exhausted s f p hlook hv]
      show (frameAt s i).pinCnt ≤ (frameAt ((allocBuf s).1.1) i).pinCnt
      exact Nat.le_of_eq hpeq.symm
    | some id =>
      cases hread : (dget ((allocBuf s).1.1).disk f).readPage p with
      | none =>
        rw [readPage_invalidPage s f p id hlook hv hread]
        show (frameAt s i).pinCnt ≤ (frameAt ((allocBuf s).1.1) i).pinCnt
        exact Nat.le_of_eq hpeq.symm
      | some pg =>
        rw [readPage_load s f p id pg hlook hv hread]
        have hfr : frameAt { (allocBuf s).1.1 with pool := ((allocBuf s).1.1).pool.set id pg, hash := ((f, p), id) :: ((allocBuf s).1.1).hash, frames := ((allocBuf s).1.1).frames.set id (BufDesc.Set f p) } i = if id = i ∧ id < ((allocBuf s).1.1).numBufs then BufDesc.Set f p else frameAt ((allocBuf s).1.1) i := by
          have hnb : ((allocBuf s).1.1).numBufs = ((allocBuf s).1.1).frames.length := rfl
          show (((allocBuf s).1.1).frames.set id (BufDesc.Set f p)).getD i BufDesc.Clear = _
          rw [getD_set_cases, hnb]
          rfl
        show (frameAt s i).pinCnt ≤ (frameAt ({ (allocBuf s).1.1 with pool := ((allocBuf s).1.1).pool.set id pg, hash := ((f, p), id) :: ((allocBuf s).1.1).hash, frames := ((allocBuf s).1.1).frames.set id (BufDesc.Set f p) }) i).pinCnt
        rw [hfr]
        have hpeq : (frameAt ((allocBuf s).1.1) i).pinCnt = (frameAt s i).pinCnt :=
          allocBufLoop_pinCnt (2 * s.numBufs + 1) s i hd
        by_cases hcz : id = i ∧ id < ((allocBuf s).1.1).numBufs
        · rw [if_pos hcz]
          have hclear : frameAt ((allocBuf s).1.1) id = BufDesc.Clear :=
            allocBufLoop_victim_clear (2 * s.numBufs + 1) s id hv
          have hz : (frameAt s i).pinCnt = 0 := by
            rw [← hpeq, ← hcz.1, hclear]
            rfl
          rw [hz]
          show 0 ≤ 1
          omega
        · rw [if_neg hcz, hpeq]

/-- BufMgr::allocPage never decreases any frame's pin count. -/
theorem allocPage_pin_mono (s : BufState) (f i : Nat) (hd : descOk s) :
    (frameAt s i).pinCnt ≤ (frameAt (allocPage s f).1 i).pinCnt := by
  have hd0 : descOk { s with disk := dset s.disk f ((dget s.disk f).allocatePage).2 } := hd
  cases hv : (allocBuf { s with disk := dset s.disk f ((dget s.disk f).allocatePage).2 }).1.2 with
  | none =>
    rw [allocPage_exhausted s f hv]
    have heq : (frameAt ((allocBuf { s with disk := dset s.disk f ((dget s.disk f).allocatePage).2 }).1.1) i).pinCnt = (frameAt s i).pinCnt :=
      allocBufLoop_pinCnt (2 * ({ s with disk := dset s.disk f ((dget s.disk f).allocatePage).2 } : BufState).numBufs + 1) { s with disk := dset s.disk f ((dget s.disk f).allocatePage).2 } i hd0
    show (frameAt s i).pinCnt ≤ (frameAt ((allocBuf { s with disk := dset s.disk f ((dget s.disk f).allocatePage).2 }).1.1) i).pinCnt
    exact Nat.le_of_eq heq.symm
  | some fid =>
    rw [allocPage_ok s f fid hv]
    have hpeq : (frameAt ((allocBuf { s with disk := dset s.disk f ((dget s.disk f).allocatePage).2 }).1.1) i).pinCnt = (frameAt s i).pinCnt :=
      allocBufLoop_pinCnt (2 * ({ s with disk := dset s.disk f ((dget s.disk f).allocatePage).2 } : BufState).numBufs + 1) { s with disk := dset s.disk f ((dget s.disk f).allocatePage).2 } i hd0
    have hfr : frameAt { (allocBuf { s with disk := dset s.disk f ((dget s.disk f).allocatePage).2 }).1.1 with hash := ((f, (dget s.disk f).nextPage), fid) :: ((allocBuf { s with disk := dset s.disk f ((dget s.disk f).allocatePage).2 }).1.1).hash, frames := ((allocBuf { s with disk := dset s.disk f ((dget s.disk f).allocatePage).2 }).1.1).frames.set fid (BufDesc.Set f (dget s.disk f).nextPage), pool := ((allocBuf { s with disk := dset s.disk f ((dget s.disk f).allocatePage).2 }).1.1).pool.set fid ({ pageNo := (dget s.disk f).nextPage, data := 0 }) } i = if fid = i ∧ fid < ((allocBuf { s with disk := dset s.disk f ((dget s.disk f).allocatePage).2 }).1.1).numBufs then BufDesc.Set f (dget s.disk f).nextPage else frameAt ((allocBuf { s with disk := dset s.disk f ((dget s.disk f).allocatePage).2 }).1.1) i := by
      have hnb : ((allocBuf { s with disk := dset s.disk f ((dget s.disk f).allocatePage).2 }).1.1).numBufs = ((allocBuf { s with disk := dset s.disk f ((dget s.disk f).allocatePage).2 }).1.1).frames.length := rfl
      show (((allocBuf { s with disk := dset s.disk f ((dget s.disk f).allocatePage).2 }).1.1).frames.set fid (BufDesc.Set f (dget s.disk f).nextPage)).getD i BufDesc.Clear = _
      rw [getD_set_cases, hnb]
      rfl
    rw [hfr]
    by_cases hcz : fid = i ∧ fid < ((allocBuf { s with disk := dset s.disk f ((dget s.disk f).allocatePage).2 }).1.1).numBufs
    · rw [if_pos hcz]
      have hclear := allocBufLoop_victim_clear (2 * ({ s with disk := dset s.disk f ((dget s.disk f).allocatePage).2 } : BufState).numBufs + 1) { s with disk := dset s.disk f ((dget s.disk f).allocatePage).2 } fid hv
      have hz : (frameAt s i).pinCnt = 0 := by
        rw [← hpeq, ← hcz.1]
        rw [show frameAt ((allocBuf { s with disk := dset s.disk f ((dget s.disk f).allocatePage).2 }).1.1) fid = BufDesc.Clear from hclear]
        rfl
      rw [hz]
      show 0 ≤ 1
      omega
    · rw [if_neg hcz, hpeq]

/-- The flush scan never changes any frame's pin count. -/
theorem flushLoop_pinCnt (f : Nat) : ∀ (ids : List Nat) (s : BufState) (i : Nat),
    (frameAt (flushLoop f s ids).1 i).pinCnt = (frameAt s i).pinCnt := by
  intro ids
  induction ids with
  | nil => intro s i; rfl
  | cons id rest ih =>
    intro s i
    by_cases hfe : (frameAt s id).fileId = some f
    · by_cases hval : (frameAt s id).valid = false
      · rw [flushLoop_bad f s id rest hfe hval]
      · have hval1 := bool_ne_false hval
        by_cases hp : (frameAt s id).pinCnt = 0
        · rw [flushLoop_flush f s id rest hfe hval1 hp, ih]
          rw [evictFrame_frameAt]
          by_cases hcz : id = i ∧ id < s.numBufs
          · rw [if_pos hcz]
            show (0 : Nat) = (frameAt s i).pinCnt
            rw [← hcz.1, hp]
          · rw [if_neg hcz]
        · rw [flushLoop_pinned f s id rest hfe hval1 hp]
    · rw [flushLoop_skip f s id rest hfe]
      exact ih s i

end BufMgr

namespace BufMgr

/-- The scenario disk is well formed: every allocated page number lies below
the fresh-page counter. -/
theorem demoDisk_wf : diskWF demoDisk := by
  intro e he
  simp [demoDisk] at he
  subst he
  intro x hx
  simp at hx
  rcases hx with h | h | h <;> rw [h] <;> decide

/-- Claim C2: every victim-selection sweep step first advances the clock hand
by exactly one position, wrapping at numFrames, and then treats the frame
under the hand in this order: an invalid frame is selected immediately with
no write-back and no Page Index removal; else a referenced frame only loses
its reference bit and the sweep continues; else a pinned frame is skipped;
else the frame is evicted and selected.  Consequently the sweep never selects
a valid frame with a nonzero pin count. -/
theorem claim2_clock_policy (s : BufState) (fuel : Nat) :
    (advanceClock s).clockHand = (if s.clockHand = s.numBufs - 1 then 0 else s.clockHand + 1) ∧
    ((frameAt s (nextHand s)).valid = false →
      allocBufLoop s (fuel + 1) =
        (({ s with clockHand := nextHand s,
                   frames := s.frames.set (nextHand s) BufDesc.Clear }, some (nextHand s)), 1)) ∧
    ((frameAt s (nextHand s)).valid = true → (frameAt s (nextHand s)).refbit = true →
      allocBufLoop s (fuel + 1) =
        ((allocBufLoop { s with clockHand := nextHand s, frames := s.frames.set (nextHand s) ({ frameAt s (nextHand s) with refbit := false }) } fuel).1,
         (allocBufLoop { s with clockHand := nextHand s, frames := s.frames.set (nextHand s) ({ frameAt s (nextHand s) with refbit := false }) } fuel).2 + 1)) ∧
    ((frameAt s (nextHand s)).valid = true → (frameAt s (nextHand s)).refbit = false →
      (frameAt s (nextHand s)).pinCnt ≠ 0 →
      allocBufLoop s (fuel + 1) =
        ((allocBufLoop (advanceClock s) fuel).1, (allocBufLoop (advanceClock s) fuel).2 + 1)) ∧
    ((frameAt s (nextHand s)).valid = true → (frameAt s (nextHand s)).refbit = false →
      (frameAt s (nextHand s)).pinCnt = 0 →
      allocBufLoop s (fuel + 1) = ((evictFrame (advanceClock s) (nextHand s), some (nextHand s)), 1)) ∧
    (∀ v, (allocBufLoop s fuel).1.2 = some v → (frameAt s v).valid = true →
      (frameAt s v).pinCnt = 0) := by
  refine ⟨rfl, fun h => allocBufLoop_invalid s fuel h,
    fun hv hr => allocBufLoop_refbit s fuel hv hr,
    fun hv hr hp => allocBufLoop_pinned s fuel hv hr hp,
    fun hv hr hp => allocBufLoop_victim s fuel hv hr hp,
    fun v hsel hval => ?_⟩
  rcases allocBufLoop_victim_pre fuel s v hsel with h | h
  · rw [hval] at h
    exact absurd h (by simp)
  · exact h

/-- Claim C3 (corrected): the victim-selection sweep terminates within
2 × numFrames + 1 iterations — the code's `count++ <= trylimit` with
trylimit = 2 × numFrames admits one more iteration than the stated
2 × numFrames bound — and it fails with BufferExceededException exactly when
every frame is valid and pinned; with a pool of 2 frames both holding pinned
pages, requesting a third page fails with BufferExceededException. -/
theorem claim3_sweep_bound (s : BufState) (hn : 1 ≤ s.numBufs) (hc : clockOk s) :
    (allocBuf s).2 ≤ 2 * s.numBufs + 1 ∧
    ((allocBuf s).1.2 = none ↔
      ∀ i < s.numBufs, (frameAt s i).valid = true ∧ (frameAt s i).pinCnt ≠ 0) ∧
    (readPage twoFramePinned 0 3).2 = .error .bufferExceeded :=
  ⟨allocBufLoop_steps_le (2 * s.numBufs + 1) s, allocBuf_none_iff s hn hc, rfl⟩

/-- Claim C3 counterexample: with both frames of a 2-frame pool pinned, the
sweep executes 5 iterations before failing, exceeding the claimed bound of
2 × numFrames = 4 steps. -/
theorem claim3_counterexample :
    2 * twoFramePinned.numBufs < (allocBuf twoFramePinned).2 := by decide

theorem claim3_sweep_bound_witness :
    1 ≤ twoFramePinned.numBufs ∧ clockOk twoFramePinned ∧
    ((allocBuf twoFramePinned).2 ≤ 2 * twoFramePinned.numBufs + 1 ∧
     ((allocBuf twoFramePinned).1.2 = none ↔
       ∀ i < twoFramePinned.numBufs,
         (frameAt twoFramePinned i).valid = true ∧ (frameAt twoFramePinned i).pinCnt ≠ 0) ∧
     (readPage twoFramePinned 0 3).2 = .error .bufferExceeded) :=
  ⟨by decide, by show twoFramePinned.clockHand < twoFramePinned.numBufs; decide,
   claim3_sweep_bound twoFramePinned (by decide)
     (by show twoFramePinned.clockHand < twoFramePinned.numBufs; decide)⟩

/-- Claim C4: starting from a freshly constructed pool over a well-formed
disk, after any sequence of public operations no two valid frames
simultaneously hold the same (file, pageNumber) key. -/
theorem claim4_key_uniqueness (n : Nat) (d : List (Nat × DiskFile)) (ops : List Op)
    (hn : 1 ≤ n) (hd : diskWF d) :
    keyUnique (run (initState n d) ops) :=
  keyUnique_of_Inv _ (inv_run ops _ (inv_initState n d hn hd))

theorem claim4_key_uniqueness_witness :
    1 ≤ 2 ∧ diskWF demoDisk ∧
    keyUnique (run (initState 2 demoDisk) [Op.read 0 1, Op.read 0 2, Op.unpin 0 1 false]) :=
  ⟨by decide, demoDisk_wf,
   claim4_key_uniqueness 2 demoDisk [Op.read 0 1, Op.read 0 2, Op.unpin 0 1 false]
     (by decide) demoDisk_wf⟩

/-- Claim C7: unPinPage on a page with no Page Index entry is a silent no-op;
on a present page with pin count zero it fails with PageNotPinnedException
without changing state; otherwise it decrements the pin count by one, sets
the dirty flag when markDirty holds and never clears it, and leaves every
other frame untouched. -/
theorem claim7_unpin_semantics (s : BufState) (f p : Nat) (d : Bool) :
    (hlookup s.hash f p = none → unPinPage s f p d = (s, none)) ∧
    (∀ id, hlookup s.hash f p = some id → (frameAt s id).pinCnt = 0 →
      unPinPage s f p d = (s, some (.pageNotPinned f p))) ∧
    (∀ id, hlookup s.hash f p = some id → (frameAt s id).pinCnt ≠ 0 →
      (unPinPage s f p d).2 = none ∧
      (frameAt (unPinPage s f p d).1 id).pinCnt = (frameAt s id).pinCnt - 1 ∧
      (frameAt (unPinPage s f p d).1 id).dirty = (d || (frameAt s id).dirty) ∧
      (∀ j, j ≠ id → frameAt (unPinPage s f p d).1 j = frameAt s j)) := by
  refine ⟨fun h => unPinPage_missing s f p d h,
    fun id hid hp => unPinPage_notPinned s f p id d hid hp,
    fun id hid hp => ?_⟩
  have hlt : id < s.numBufs := by
    by_contra hge
    have hcl : frameAt s id = BufDesc.Clear :=
      getD_of_le s.frames id BufDesc.Clear (Nat.le_of_not_lt hge)
    rw [hcl] at hp
    exact hp rfl
  rw [unPinPage_dec s f p id d hid hp]
  refine ⟨rfl, ?_, ?_, ?_⟩
  · show (frameAt { s with frames := s.frames.set id ({ frameAt s id with pinCnt := (frameAt s id).pinCnt - 1, dirty := d || (frameAt s id).dirty }) } id).pinCnt = (frameAt s id).pinCnt - 1
    rw [frameAt_framesSet, if_pos ⟨rfl, hlt⟩]
  · show (frameAt { s with frames := s.frames.set id ({ frameAt s id with pinCnt := (frameAt s id).pinCnt - 1, dirty := d || (frameAt s id).dirty }) } id).dirty = (d || (frameAt s id).dirty)
    rw [frameAt_framesSet, if_pos ⟨rfl, hlt⟩]
  · intro j hj
    show frameAt { s with frames := s.frames.set id ({ frameAt s id with pinCnt := (frameAt s id).pinCnt - 1, dirty := d || (frameAt s id).dirty }) } j = frameAt s j
    rw [frameAt_framesSet, if_neg (fun hh => hj hh.1.symm)]

/-- Claim C9: disposePage on a page that is not cached leaves the Page Index,
all frame descriptors and all frame contents unchanged and raises no error;
on a cached page it removes the Page Index entry and resets the caching
frame's descriptor to empty, and performs no write-back even if the frame is
dirty (the write-back log is untouched). -/
theorem claim9_dispose_effects (s : BufState) (f p : Nat) :
    (hlookup s.hash f p = none →
      (disposePage s f p).2 = none ∧
      (disposePage s f p).1.hash = s.hash ∧
      (disposePage s f p).1.frames = s.frames ∧
      (disposePage s f p).1.pool = s.pool ∧
      (disposePage s f p).1.log = s.log) ∧
    (∀ fid, hlookup s.hash f p = some fid →
      (disposePage s f p).2 = none ∧
      (disposePage s f p).1.hash = hremove s.hash f p ∧
      hlookup (disposePage s f p).1.hash f p = none ∧
      (fid < s.numBufs → frameAt (disposePage s f p).1 fid = BufDesc.Clear) ∧
      (∀ j, j ≠ fid → frameAt (disposePage s f p).1 j = frameAt s j) ∧
      (disposePage s f p).1.log = s.log) := by
  constructor
  · intro h
    rw [disposePage_missing s f p h]
    exact ⟨rfl, rfl, rfl, rfl, rfl⟩
  · intro fid hfid
    rw [disposePage_cached s f p fid hfid]
    refine ⟨rfl, rfl, ?_, ?_, ?_, rfl⟩
    · show hlookup (hremove s.hash f p) f p = none
      exact hlookup_hremove_self s.hash f p
    · intro h
      show (s.frames.set fid BufDesc.Clear).getD fid BufDesc.Clear = BufDesc.Clear
      exact getD_set_self s.frames fid BufDesc.Clear BufDesc.Clear h
    · intro j hj
      show (s.frames.set fid BufDesc.Clear).getD j BufDesc.Clear = frameAt s j
      rw [getD_set_cases, if_neg (fun hh => hj hh.1.symm)]
      rfl

end BufMgr

namespace BufMgr

/-- Claim C1: readPage on a Page Index hit sets the cached frame's reference
bit, increments its pin count by exactly one and returns that frame, leaving
every other frame untouched; on a miss with an allocBuf victim and a
successful File read it loads the page bytes into the victim frame, inserts
the (file, pageNumber) mapping, initializes the descriptor to valid, not
dirty, referenced, pin count one, owning file and page number, and returns
the victim frame; in both cases exactly one pin is added for the requested
page and no other frame's pin count changes. -/
theorem claim1_readPage_effects (s : BufState) (f p : Nat) (hInv : Inv s) :
    (∀ id, hlookup s.hash f p = some id →
      (readPage s f p).2 = .ok id ∧
      frameAt (readPage s f p).1 id
        = { frameAt s id with refbit := true, pinCnt := (frameAt s id).pinCnt + 1 } ∧
      (∀ j, j ≠ id → frameAt (readPage s f p).1 j = frameAt s j)) ∧
    (∀ id pg, hlookup s.hash f p = none → (allocBuf s).1.2 = some id →
      (dget ((allocBuf s).1.1).disk f).readPage p = some pg →
      (readPage s f p).2 = .ok id ∧
      frameAt (readPage s f p).1 id = BufDesc.Set f p ∧
      (readPage s f p).1.pool = s.pool.set id pg ∧
      hlookup (readPage s f p).1.hash f p = some id ∧
      (frameAt s id).pinCnt = 0 ∧
      (∀ j, j ≠ id → (frameAt (readPage s f p).1 j).pinCnt = (frameAt s j).pinCnt)) := by
  constructor
  · intro id hid
    have hlt : id < s.numBufs := (hInv.2.2.1 _ (hlookup_mem hid)).1
    rw [readPage_hit s f p id hid]
    refine ⟨rfl, ?_, ?_⟩
    · show frameAt { s with frames := s.frames.set id ({ frameAt s id with refbit := true, pinCnt := (frameAt s id).pinCnt + 1 }) } id = _
      rw [frameAt_framesSet, if_pos ⟨rfl, hlt⟩]
    · intro j hj
      show frameAt { s with frames := s.frames.set id ({ frameAt s id with refbit := true, pinCnt := (frameAt s id).pinCnt + 1 }) } j = frameAt s j
      rw [frameAt_framesSet, if_neg (fun hh => hj hh.1.symm)]
  · intro id pg hmiss hsome hread
    have hd : descOk s := hInv.2.2.2.2.1
    have hidlt : id < s.numBufs :=
      (allocBufLoop_hand (2 * s.numBufs + 1) s hInv.1 hInv.2.1).2 id hsome
    have hlen : ((allocBuf s).1.1).frames.length = s.frames.length :=
      allocBufLoop_length (2 * s.numBufs + 1) s
    rw [readPage_load s f p id pg hmiss hsome hread]
    refine ⟨rfl, ?_, ?_, ?_, ?_, ?_⟩
    · show (((allocBuf s).1.1).frames.set id (BufDesc.Set f p)).getD id BufDesc.Clear = BufDesc.Set f p
      refine getD_set_self _ id _ _ ?_
      rw [hlen]
      exact hidlt
    · show ((allocBuf s).1.1).pool.set id pg = s.pool.set id pg
      have hp : ((allocBuf s).1.1).pool = s.pool := allocBufLoop_pool (2 * s.numBufs + 1) s
      rw [hp]
    · show hlookup (((f, p), id) :: ((allocBuf s).1.1).hash) f p = some id
      exact hlookup_cons_self _ f p id
    · rcases allocBufLoop_victim_pre (2 * s.numBufs + 1) s id hsome with hv | hv
      · rw [hd id hidlt hv]
        rfl
      · exact hv
    · intro j hj
      have h1 : (((allocBuf s).1.1).frames.set id (BufDesc.Set f p)).getD j BufDesc.Clear = frameAt ((allocBuf s).1.1) j := by
        rw [getD_set_cases, if_neg (fun hh => hj hh.1.symm)]
        rfl
      show ((((allocBuf s).1.1).frames.set id (BufDesc.Set f p)).getD j BufDesc.Clear).pinCnt = (frameAt s j).pinCnt
      rw [h1]
      exact allocBufLoop_pinCnt (2 * s.numBufs + 1) s j hd

theorem claim1_readPage_effects_witness :
    Inv twoFrameState ∧
    (readPage twoFrameState 0 1).2 = .ok 0 ∧
    frameAt (readPage twoFrameState 0 1).1 0
      = { frameAt twoFrameState 0 with refbit := true, pinCnt := (frameAt twoFrameState 0).pinCnt + 1 } := by
  have hInv : Inv twoFrameState :=
    inv_run [Op.read 0 1, Op.unpin 0 1 true, Op.read 0 2] (initState 2 demoDisk)
      (inv_initState 2 demoDisk (by decide) demoDisk_wf)
  have h := (claim1_readPage_effects twoFrameState 0 1 hInv).1 0 rfl
  exact ⟨hInv, h.1, h.2.1⟩

/-- Claim C5 (corrected): a failing operation keeps the mutations it already
performed rather than rolling back to the pre-call state: allocPage that
fails with BufferExceededException leaves the fresh on-disk page allocated
(the file's fresh-page counter has advanced), and flushFile on a file with an
unpinned dirty page in frame 0 and a pinned page in frame 1 fails with
PagePinnedException after frame 0 has already been flushed: frame 0's
descriptor is cleared and its contents were written back. -/
theorem claim5_partial_failure (s : BufState) (f : Nat) :
    ((allocPage s f).2 = .error .bufferExceeded →
      (dget (allocPage s f).1.disk f).nextPage = (dget s.disk f).nextPage + 1) ∧
    ((flushFile twoFrameState 0).2 = some (.pagePinned 0 2) ∧
     frameAt (flushFile twoFrameState 0).1 0 = BufDesc.Clear ∧
     ((0 : Nat), ({ pageNo := 1, data := 11 } : Page)) ∈ (flushFile twoFrameState 0).1.log) := by
  refine ⟨?_, rfl, rfl, by decide⟩
  intro hfail
  cases hv : (allocBuf { s with disk := dset s.disk f ((dget s.disk f).allocatePage).2 }).1.2 with
  | some fid =>
    rw [allocPage_ok s f fid hv] at hfail
    exact absurd hfail (by simp)
  | none =>
    rw [allocPage_exhausted s f hv]
    show (dget ((allocBufLoop { s with disk := dset s.disk f ((dget s.disk f).allocatePage).2 } (2 * ({ s with disk := dset s.disk f ((dget s.disk f).allocatePage).2 } : BufState).numBufs + 1)).1.1).disk f).nextPage = (dget s.disk f).nextPage + 1
    rw [allocBufLoop_nextPage]
    show (dget (dset s.disk f ((dget s.disk f).allocatePage).2) f).nextPage = (dget s.disk f).nextPage + 1
    rw [dget_dset_self]
    exact allocatePage_nextPage (dget s.disk f)

/-- Claim C5 counterexample: flushFile on file 0 of a state whose frame 0
holds an unpinned dirty page and whose frame 1 holds a pinned page fails with
PagePinnedException, yet frame 0 — an unpinned page's frame of that file —
has been flushed and changed; and allocPage on a fully pinned 1-frame pool
fails with BufferExceededException, yet the file's fresh-page counter has
visibly advanced. -/
theorem claim5_counterexample :
    ((flushFile twoFrameState 0).2 = some (.pagePinned 0 2) ∧
      frameAt (flushFile twoFrameState 0).1 0 ≠ frameAt twoFrameState 0) ∧
    ((allocPage oneFramePinned 0).2 = .error .bufferExceeded ∧
      (dget (allocPage oneFramePinned 0).1.disk 0).nextPage
        ≠ (dget oneFramePinned.disk 0).nextPage) := by
  exact ⟨⟨rfl, by decide⟩, ⟨rfl, by decide⟩⟩

/-- Claim C6: in every path that resets a valid frame's descriptor to empty —
eviction of the sweep's victim, the per-frame eviction flow itself, flushFile
and the destructor's shutdown scan — a dirty frame's contents are written
back to its owning file via the File collaborator (the write-back event is
recorded) before or as the descriptor is reset. -/
theorem claim6_writeback_order (s : BufState) (f v id : Nat) :
    ((allocBuf s).1.2 = some v → (frameAt s v).valid = true → (frameAt s v).dirty = true →
      ((frameAt s v).fileId.getD 0, poolAt s v) ∈ ((allocBuf s).1.1).log ∧
      frameAt ((allocBuf s).1.1) v = BufDesc.Clear) ∧
    ((frameAt s id).dirty = true →
      (evictFrame s id).log = ((frameAt s id).fileId.getD 0, poolAt s id) :: s.log) ∧
    (id < s.numBufs → (frameAt s id).fileId = some f → (frameAt s id).valid = true →
      (frameAt s id).dirty = true → (flushFile s f).2 = none →
      (f, poolAt s id) ∈ (flushFile s f).1.log ∧
      frameAt (flushFile s f).1 id = BufDesc.Clear) ∧
    (id < s.numBufs → (frameAt s id).valid = true → (frameAt s id).dirty = true →
      (shutdown s).2 = none →
      ((frameAt s id).fileId.getD 0, poolAt s id) ∈ (shutdown s).1.log) := by
  refine ⟨fun hsel hval hdirty => ?_, fun hdirty => ?_,
    fun hlt hfe hval hdirty hnone => ?_, fun hlt hval hdirty hnone => ?_⟩
  · have h := allocBufLoop_victim_valid (2 * s.numBufs + 1) s v hsel hval
    refine ⟨?_, allocBufLoop_victim_clear (2 * s.numBufs + 1) s v hsel⟩
    have hlog := (h.2.1 hdirty).1
    show ((frameAt s v).fileId.getD 0, poolAt s v) ∈ ((allocBufLoop s (2 * s.numBufs + 1)).1.1).log
    rw [hlog]
    exact List.mem_cons_self _ _
  · rw [evictFrame_dirty s id hdirty]
  · exact flushLoop_processes f (List.range s.numBufs) s id (List.mem_range.mpr hlt)
      hfe hval hdirty hnone
  · exact shutdownLoop_processes (List.range s.numBufs) s id (List.mem_range.mpr hlt)
      hval hdirty hnone

/-- Claim C8 (corrected): readPage and allocPage never decrease any frame's
pin count and flushFile never changes one; unPinPage decrements only the
looked-up frame's pin count, by one, and only when it is nonzero; disposePage
of a page that is not cached leaves all descriptors unchanged and of a cached
page changes no frame other than the caching one — but it clears the caching
frame's descriptor unconditionally, zeroing its pin count even when the page
is still pinned. -/
theorem claim8_pin_discipline (s : BufState) (f p i : Nat) (d : Bool) (hd : descOk s) :
    (frameAt s i).pinCnt ≤ (frameAt (readPage s f p).1 i).pinCnt ∧
    (frameAt s i).pinCnt ≤ (frameAt (allocPage s f).1 i).pinCnt ∧
    (frameAt (flushFile s f).1 i).pinCnt = (frameAt s i).pinCnt ∧
    (∀ id, hlookup s.hash f p = some id → (frameAt s id).pinCnt = 0 →
      (unPinPage s f p d).1 = s) ∧
    (∀ id, hlookup s.hash f p = some id → (frameAt s id).pinCnt ≠ 0 →
      (frameAt (unPinPage s f p d).1 id).pinCnt = (frameAt s id).pinCnt - 1 ∧
      (∀ j, j ≠ id → frameAt (unPinPage s f p d).1 j = frameAt s j)) ∧
    (hlookup s.hash f p = none → (disposePage s f p).1.frames = s.frames) ∧
    (∀ fid, hlookup s.hash f p = some fid →
      (∀ j, j ≠ fid → frameAt (disposePage s f p).1 j = frameAt s j) ∧
      (fid < s.numBufs → (frameAt (disposePage s f p).1 fid).pinCnt = 0)) := by
  refine ⟨readPage_pin_mono s f p i hd, allocPage_pin_mono s f i hd,
    flushLoop_pinCnt f (List.range s.numBufs) s i, ?_, ?_, ?_, ?_⟩
  · intro id hid hp
    rw [unPinPage_notPinned s f p id d hid hp]
  · intro id hid hp
    have hlt : id < s.numBufs := by
      by_contra hge
      have hcl : frameAt s id = BufDesc.Clear :=
        getD_of_le s.frames id BufDesc.Clear (Nat.le_of_not_lt hge)
      rw [hcl] at hp
      exact hp rfl
    rw [unPinPage_dec s f p id d hid hp]
    constructor
    · show (frameAt { s with frames := s.frames.set id ({ frameAt s id with pinCnt := (frameAt s id).pinCnt - 1, dirty := d || (frameAt s id).dirty }) } id).pinCnt = (frameAt s id).pinCnt - 1
      rw [frameAt_framesSet, if_pos ⟨rfl, hlt⟩]
    · intro j hj
      show frameAt { s with frames := s.frames.set id ({ frameAt s id with pinCnt := (frameAt s id).pinCnt - 1, dirty := d || (frameAt s id).dirty }) } j = frameAt s j
      rw [frameAt_framesSet, if_neg (fun hh => hj hh.1.symm)]
  · intro h
    rw [disposePage_missing s f p h]
  · intro fid hfid
    rw [disposePage_cached s f p fid hfid]
    constructor
    · intro j hj
      show (s.frames.set fid BufDesc.Clear).getD j BufDesc.Clear = frameAt s j
      rw [getD_set_cases, if_neg (fun hh => hj hh.1.symm)]
      rfl
    · intro h
      show ((s.frames.set fid BufDesc.Clear).getD fid BufDesc.Clear).pinCnt = 0
      rw [getD_set_self s.frames fid BufDesc.Clear BufDesc.Clear h]
      rfl

/-- Claim C8 counterexample: disposing file 0's page 1, which is cached in
the single frame with pin count 1, zeroes that positive pin count even
though no unpin was performed. -/
theorem claim8_counterexample :
    (frameAt oneFramePinned 0).pinCnt = 1 ∧
    (frameAt (disposePage oneFramePinned 0 1).1 0).pinCnt = 0 := ⟨rfl, rfl⟩

theorem claim8_pin_discipline_witness :
    descOk (initState 1 demoDisk) ∧
    (frameAt (initState 1 demoDisk) 0).pinCnt
      ≤ (frameAt (readPage (initState 1 demoDisk) 0 1).1 0).pinCnt := by
  have hd : descOk (initState 1 demoDisk) := fun i _ _ => getD_replicate 1 i BufDesc.Clear
  exact ⟨hd, (claim8_pin_discipline (initState 1 demoDisk) 0 1 0 false hd).1⟩

/-- Claim C10: when a readPage miss's File read fails, the failure propagates
while the already-performed eviction persists: the victim frame's descriptor
is left empty, the victim's former page (if the victim was valid) is no
longer in the Page Index and was written back if dirty, no mapping for the
requested (file, pageNumber) is inserted, and the pool's key-uniqueness and
descriptor invariants still hold. -/
theorem claim10_read_miss_failure (s : BufState) (f p id : Nat) (hInv : Inv s)
    (hmiss : hlookup s.hash f p = none) (hsome : (allocBuf s).1.2 = some id)
    (hread : (dget ((allocBuf s).1.1).disk f).readPage p = none) :
    (readPage s f p).2 = .error (.invalidPage f p) ∧
    (readPage s f p).1 = (allocBuf s).1.1 ∧
    frameAt (readPage s f p).1 id = BufDesc.Clear ∧
    ((frameAt s id).valid = true →
      hlookup (readPage s f p).1.hash ((frameAt s id).fileId.getD 0)
        ((frameAt s id).pageNo.getD 0) = none ∧
      ((frameAt s id).dirty = true →
        ((frameAt s id).fileId.getD 0, poolAt s id) ∈ (readPage s f p).1.log)) ∧
    hlookup (readPage s f p).1.hash f p = none ∧
    keyUnique (readPage s f p).1 ∧
    Inv (readPage s f p).1 := by
  have hre : readPage s f p = ((allocBuf s).1.1, .error (.invalidPage f p)) :=
    readPage_invalidPage s f p id hmiss hsome hread
  have hInv1 : Inv (readPage s f p).1 := inv_readPage s f p hInv
  have hhash : ∀ e ∈ ((allocBuf s).1.1).hash, e ∈ s.hash :=
    fun e he => allocBufLoop_hash_sub (2 * s.numBufs + 1) s e he
  refine ⟨by rw [hre], by rw [hre], ?_, ?_, ?_, keyUnique_of_Inv _ hInv1, hInv1⟩
  · rw [hre]
    show frameAt ((allocBuf s).1.1) id = BufDesc.Clear
    exact allocBufLoop_victim_clear (2 * s.numBufs + 1) s id hsome
  · intro hval
    have h := allocBufLoop_victim_valid (2 * s.numBufs + 1) s id hsome hval
    constructor
    · rw [hre]
      show hlookup ((allocBuf s).1.1).hash ((frameAt s id).fileId.getD 0)
        ((frameAt s id).pageNo.getD 0) = none
      have hrm : ((allocBuf s).1.1).hash
          = hremove s.hash ((frameAt s id).fileId.getD 0) ((frameAt s id).pageNo.getD 0) := h.1
      rw [hrm]
      exact hlookup_hremove_self s.hash _ _
    · intro hdirty
      rw [hre]
      show ((frameAt s id).fileId.getD 0, poolAt s id) ∈ ((allocBuf s).1.1).log
      have hlog := (h.2.1 hdirty).1
      show ((frameAt s id).fileId.getD 0, poolAt s id) ∈ ((allocBufLoop s (2 * s.numBufs + 1)).1.1).log
      rw [hlog]
      exact List.mem_cons_self _ _
  · rw [hre]
    show hlookup ((allocBuf s).1.1).hash f p = none
    rw [hlookup_eq_none]
    intro e he hkey
    have hmem : e ∈ s.hash := hhash e he
    rw [hlookup_eq_none] at hmiss
    exact hmiss e hmem hkey

theorem claim10_read_miss_failure_witness :
    Inv (initState 1 demoDisk) ∧
    hlookup (initState 1 demoDisk).hash 0 9 = none ∧
    (allocBuf (initState 1 demoDisk)).1.2 = some 0 ∧
    (dget ((allocBuf (initState 1 demoDisk)).1.1).disk 0).readPage 9 = none ∧
    (readPage (initState 1 demoDisk) 0 9).2 = .error (.invalidPage 0 9) := by
  have hInv : Inv (initState 1 demoDisk) := inv_initState 1 demoDisk (by decide) demoDisk_wf
  have h := claim10_read_miss_failure (initState 1 demoDisk) 0 9 0 hInv rfl (by decide) (by decide)
  exact ⟨hInv, rfl, by decide, by decide, h.1⟩

end BufMgr
